import Mathlib

/-!
Verification development for the ml-biological-age-service repository.

The embedding translates, from the Python sources:
  * `app/models/assessment.py` — the `AssessmentTask` state machine;
  * `app/ml/validators.py` — `BioAgeDataValidator.validate`;
  * `app/services/billing.py` — `BillingService` (topup / charge_after_success);
  * `app/services/auth.py` — wallet creation at registration;
  * `app/services/task.py` — `TaskService._process` (the synchronous run path);
  * `app/routes/task.py` — the `/predict` and `/run` queue-submission routes;
  * `worker/main.py` — the queue consumer `on_message`.

Python dictionaries of answers are modelled as association lists of a
`PyVal` value type; Python floats are modelled as rationals; raised
exceptions are modelled with `Except`.  Database state is modelled as an
explicit system state record, and each request/worker handler as a pure
state transformer; the set of executions of the deployed system is the
reflexive-transitive closure of a step relation over these transformers.
-/

namespace MLBioAge

/-! ## Python-ish values stored in `answers` dictionaries -/

/-- Model of a Python value that may appear in an `answers` dict.
Floats are modelled as rationals; `pyOther` stands for any value of a
non-numeric, non-string type (lists, dicts, objects, ...). -/
inductive PyVal where
  | pyInt : Int → PyVal
  | pyFloat : Rat → PyVal
  | pyBool : Bool → PyVal
  | pyStr : String → PyVal
  | pyNone : PyVal
  | pyOther : PyVal
deriving DecidableEq, Repr

/-- Python `isinstance(v, (int, float))`; note that `bool` is a subclass
of `int` in Python, so booleans count as numbers. -/
def PyVal.isNumber : PyVal → Bool
  | .pyInt _ => true
  | .pyFloat _ => true
  | .pyBool _ => true
  | _ => false

/-- Numeric value of a `PyVal` for order comparisons; `none` when a
comparison such as `v < 0` would raise `TypeError` in Python. -/
def PyVal.toRat : PyVal → Option Rat
  | .pyInt n => some (n : Rat)
  | .pyFloat q => some q
  | .pyBool b => some (if b then 1 else 0)
  | _ => none

/-- An `answers` dictionary: field name to value, no duplicate keys in use. -/
abbrev Answers := List (String × PyVal)

/-- Python `d.get(k)` / `d[k]`: first binding of the key. -/
def dictGet (d : Answers) (k : String) : Option PyVal :=
  match d with
  | [] => none
  | (k', v) :: rest => if k' = k then some v else dictGet rest k

/-- Python `d[k] = v`: replace the binding if present, else append. -/
def dictSet (d : Answers) (k : String) (v : PyVal) : Answers :=
  match d with
  | [] => [(k, v)]
  | (k', v') :: rest => if k' = k then (k, v) :: rest else (k', v') :: dictSet rest k v

/-! ## Validation errors and the bio-age validator (`app/ml/validators.py`) -/

/-- One structured validation error (`models/validation.py:ValidationError`). -/
structure ValidationErr where
  field_name : String
  message : String
deriving DecidableEq, Repr

/-- Errors collected by the `for field in required` loop of
`BioAgeDataValidator.validate`: a missing required field, or a present
required field that is not an `int`/`float`. -/
def requiredErrors (required : List String) (data : Answers) : List ValidationErr :=
  required.filterMap fun f =>
    match dictGet data f with
    | none => some ⟨f, "Поле обязательно"⟩
    | some v => if v.isNumber then none else some ⟨f, "Должно быть числом"⟩

/-- Domain check on `age`.  The Python code compares `age < 0 or age > 120`
without an `isinstance` guard, so a present, non-`None`, non-numeric `age`
raises `TypeError`; this is the `.error` case. -/
def domainCheckAge (data : Answers) : Except Unit (List ValidationErr) :=
  match dictGet data "age" with
  | none => .ok []
  | some .pyNone => .ok []
  | some v =>
    match v.toRat with
    | none => .error ()
    | some a =>
      .ok (if a < 0 ∨ a > 120 then [⟨"age", "Возраст должен быть в диапазоне от 0 до 120"⟩] else [])

/-- Domain check on `bmi`; guarded by `isinstance`, so it never raises. -/
def domainCheckBmi (data : Answers) : List ValidationErr :=
  match dictGet data "bmi" with
  | none => []
  | some .pyNone => []
  | some v =>
    if v.isNumber then
      let q := v.toRat.getD 0
      if q < 10 ∨ q > 60 then [⟨"bmi", "BMI должен быть в диапазоне от 10 до 60"⟩] else []
    else [⟨"bmi", "BMI должен быть в диапазоне от 10 до 60"⟩]

/-- Domain check on `glucose`; guarded by `isinstance`, so it never raises. -/
def domainCheckGlucose (data : Answers) : List ValidationErr :=
  match dictGet data "glucose" with
  | none => []
  | some .pyNone => []
  | some v =>
    if v.isNumber then
      let q := v.toRat.getD 0
      if q < 0 then [⟨"glucose", "Уровень глюкозы должен быть неотрицательным числом"⟩] else []
    else [⟨"glucose", "Уровень глюкозы должен быть неотрицательным числом"⟩]

/-- The `required = self.required_features or ["age"]` line: `None` and the
empty list are falsy in Python. -/
def effectiveRequired (required_features : Option (List String)) : List String :=
  match required_features with
  | none => ["age"]
  | some [] => ["age"]
  | some l => l

/-- Accumulated error list of `BioAgeDataValidator.validate`, in the
order the Python code appends: required-field loop, then `age`, `bmi`,
`glucose` domain checks. -/
def validatorErrors (required_features : Option (List String)) (data : Answers)
    (ageErrs : List ValidationErr) : List ValidationErr :=
  requiredErrors (effectiveRequired required_features) data
    ++ ageErrs ++ domainCheckBmi data ++ domainCheckGlucose data

/-- `BioAgeDataValidator.validate`: returns `(len(errors) == 0, errors)`,
or raises (`.error`) when the unguarded `age` comparison hits a
non-numeric value. -/
def bioAgeValidate (required_features : Option (List String)) (data : Answers) :
    Except Unit (Bool × List ValidationErr) :=
  match domainCheckAge data with
  | .error e => .error e
  | .ok ageErrs =>
    .ok ((validatorErrors required_features data ageErrs).length == 0,
         validatorErrors required_features data ageErrs)

/-! ## The task state machine (`app/models/assessment.py`) -/

/-- Task lifecycle states (`models/enum.py:TaskStatus`). -/
inductive TaskStatus where
  | CREATED
  | VALIDATED
  | PROCESSING
  | DONE
  | FAILED
deriving DecidableEq, Repr

/-- Result of the ML computation (`AssessmentResult`), as stored by
`set_result` after `_json_safe` (identity on our value model). -/
structure ScoreResult where
  biological_age : Rat
  factors : List Answers := []
  validation_errors : List ValidationErr := []
deriving DecidableEq, Repr

/-- A persisted `AssessmentTask` row. -/
structure Task where
  id : Nat
  user_id : Nat
  model_id : Nat
  external_id : String
  answers : Answers := []
  validation_errors : List ValidationErr := []
  result : Option ScoreResult := none
  charged_amount : Option Int := none
  status : TaskStatus := .CREATED
  error_message : Option String := none
  worker_id : Option String := none
deriving DecidableEq, Repr

/-- `AssessmentTask.add_answer`: only while `CREATED`. -/
def Task.add_answer (t : Task) (f : String) (v : PyVal) : Except String Task :=
  if t.status = .CREATED then .ok { t with answers := dictSet t.answers f v }
  else .error "Нельзя изменять ответы после начала обработки"

/-- `AssessmentTask.set_validation_result`: only from `CREATED`; moves to
`VALIDATED` when valid, else stays `CREATED` with the errors stored. -/
def Task.set_validation_result (t : Task) (is_valid : Bool) (errors : List ValidationErr) :
    Except String Task :=
  if t.status = .CREATED then
    .ok { t with validation_errors := errors,
                 status := if is_valid then .VALIDATED else .CREATED }
  else .error "Валидацию можно сохранить только в статусе CREATED"

/-- `AssessmentTask.start_processing`: only from `VALIDATED`. -/
def Task.start_processing (t : Task) : Except String Task :=
  if t.status = .VALIDATED then .ok { t with status := .PROCESSING }
  else .error "start_processing() возможен только после успешной валидации"

/-- `AssessmentTask.set_result`: only from `PROCESSING` with a positive
`charged_amount`; records the payload and moves to `DONE`. -/
def Task.set_result (t : Task) (r : ScoreResult) (charged_amount : Int) : Except String Task :=
  if t.status = .PROCESSING then
    if charged_amount ≤ 0 then .error "charged_amount должен быть > 0"
    else .ok { t with result := some r, charged_amount := some charged_amount, status := .DONE }
  else .error "set_result() только из PROCESSING"

/-- `AssessmentTask.set_error`: the Python guard is
`status not in {CREATED, VALIDATED, PROCESSING}`, which over the
five-element enum is exactly `status ∈ {DONE, FAILED}`. -/
def Task.set_error (t : Task) (message : String) : Except String Task :=
  if t.status = .DONE ∨ t.status = .FAILED then
    .error "set_error() допускается только из CREATED/VALIDATED/PROCESSING"
  else .ok { t with error_message := some message, status := .FAILED }

/-! ## Sequences of attempted transitions (for the lifecycle invariants) -/

/-- One attempted transition call on a task. -/
inductive TaskOp where
  | opAdd (f : String) (v : PyVal)
  | opValidate (is_valid : Bool) (errors : List ValidationErr)
  | opStart
  | opResult (r : ScoreResult) (c : Int)
  | opError (m : String)

/-- Dispatch one operation. -/
def applyOp (t : Task) : TaskOp → Except String Task
  | .opAdd f v => t.add_answer f v
  | .opValidate b errs => t.set_validation_result b errs
  | .opStart => t.start_processing
  | .opResult r c => t.set_result r c
  | .opError m => t.set_error m

/-- Attempt one operation: a raising call leaves the task unchanged
(every guard in the Python methods runs before any mutation). -/
def attemptOp (t : Task) (op : TaskOp) : Task :=
  match applyOp t op with
  | .ok t' => t'
  | .error _ => t

/-- Attempt a whole sequence of operations. -/
def attemptOps (t : Task) (ops : List TaskOp) : Task :=
  ops.foldl attemptOp t

/-- The charged-amount lifecycle invariant for one task record. -/
def ChargeInv (t : Task) : Prop :=
  t.charged_amount ≠ none ↔ t.status = .DONE

theorem attemptOp_chargeInv {t : Task} (op : TaskOp) (h : ChargeInv t) :
    ChargeInv (attemptOp t op) := by
  unfold ChargeInv at h ⊢
  cases op with
  | opAdd f v =>
    cases hst : t.status <;>
      simp_all [attemptOp, applyOp, Task.add_answer]
  | opValidate b errs =>
    cases b <;> cases hst : t.status <;>
      simp_all [attemptOp, applyOp, Task.set_validation_result]
  | opStart =>
    cases hst : t.status <;>
      simp_all [attemptOp, applyOp, Task.start_processing]
  | opResult r c =>
    by_cases hc : c ≤ 0
    · cases hst : t.status <;>
        simp_all [attemptOp, applyOp, Task.set_result, if_pos hc]
    · cases hst : t.status <;>
        simp_all [attemptOp, applyOp, Task.set_result, if_neg hc]
  | opError m =>
    cases hst : t.status <;>
      simp_all [attemptOp, applyOp, Task.set_error]

theorem attemptOp_done_fixed {t : Task} (op : TaskOp) (h : t.status = .DONE) :
    attemptOp t op = t := by
  cases op <;>
    simp_all [attemptOp, applyOp, Task.add_answer, Task.set_validation_result,
      Task.start_processing, Task.set_result, Task.set_error]

theorem attemptOps_done_fixed {t : Task} (ops : List TaskOp) (h : t.status = .DONE) :
    attemptOps t ops = t := by
  induction ops with
  | nil => rfl
  | cons op rest ih =>
    simp only [attemptOps, List.foldl_cons]
    rw [attemptOp_done_fixed op h]
    exact ih

theorem attemptOps_chargeInv {t : Task} (ops : List TaskOp) (h : ChargeInv t) :
    ChargeInv (attemptOps t ops) := by
  induction ops generalizing t with
  | nil => exact h
  | cons op rest ih =>
    simp only [attemptOps, List.foldl_cons]
    exact ih (attemptOp_chargeInv op h)

/-- C4: for every sequence of transition operations applied to a task
starting in `CREATED` (with no charge recorded yet), `charged_amount` is
non-null exactly when the status is `DONE`, and once set it is never
modified by any further operations. -/
theorem charged_iff_done_and_set_once (t0 : Task)
    (hst : t0.status = .CREATED) (hch : t0.charged_amount = none)
    (ops more : List TaskOp) :
    ((attemptOps t0 ops).charged_amount ≠ none ↔ (attemptOps t0 ops).status = .DONE)
    ∧ (∀ c : Int, (attemptOps t0 ops).charged_amount = some c →
        (attemptOps t0 (ops ++ more)).charged_amount = some c) := by
  have h0 : ChargeInv t0 := by
    constructor
    · intro hne; exact absurd hch hne
    · intro hd; rw [hst] at hd; cases hd
  have hinv : ChargeInv (attemptOps t0 ops) := attemptOps_chargeInv ops h0
  refine ⟨hinv, ?_⟩
  intro c hc
  have hdone : (attemptOps t0 ops).status = .DONE := hinv.mp (by simp [hc])
  have : attemptOps t0 (ops ++ more) = attemptOps t0 ops := by
    simp only [attemptOps, List.foldl_append]
    exact attemptOps_done_fixed more hdone
  rw [this, hc]

/-- Closed witness for `charged_iff_done_and_set_once` at a concrete run:
a valid little lifecycle that reaches `DONE` with charge 25. -/
theorem charged_iff_done_and_set_once_witness :
    let t0 : Task := { id := 1, user_id := 1, model_id := 1, external_id := "t-1" }
    let ops : List TaskOp :=
      [.opValidate true [], .opStart, .opResult ⟨40, [], []⟩ 25, .opError "late"]
    ((attemptOps t0 ops).charged_amount ≠ none ↔ (attemptOps t0 ops).status = .DONE)
    ∧ (∀ c : Int, (attemptOps t0 ops).charged_amount = some c →
        (attemptOps t0 (ops ++ [.opResult ⟨1, [], []⟩ 7])).charged_amount = some c) :=
  charged_iff_done_and_set_once _ rfl rfl _ _

/-- C8: every transition operation on a task in a terminal status raises
an invalid-state error (and hence, since every guard precedes every
mutation, produces no changed task). -/
theorem terminal_ops_all_raise (t : Task) (h : t.status = .DONE ∨ t.status = .FAILED) :
    (∀ f v, ∃ e, t.add_answer f v = .error e)
    ∧ (∀ b errs, ∃ e, t.set_validation_result b errs = .error e)
    ∧ (∃ e, t.start_processing = .error e)
    ∧ (∀ r c, ∃ e, t.set_result r c = .error e)
    ∧ (∀ m, ∃ e, t.set_error m = .error e) := by
  rcases h with h | h <;>
    exact ⟨fun f v => by simp [Task.add_answer, h],
           fun b errs => by simp [Task.set_validation_result, h],
           by simp [Task.start_processing, h],
           fun r c => by simp [Task.set_result, h],
           fun m => by simp [Task.set_error, h]⟩

/-- Closed witness for `terminal_ops_all_raise` at a concrete `DONE` task. -/
theorem terminal_ops_all_raise_witness :
    let t : Task := { id := 2, user_id := 1, model_id := 1, external_id := "t-2",
                      charged_amount := some 25, status := .DONE }
    (∀ f v, ∃ e, t.add_answer f v = .error e)
    ∧ (∀ b errs, ∃ e, t.set_validation_result b errs = .error e)
    ∧ (∃ e, t.start_processing = .error e)
    ∧ (∀ r c, ∃ e, t.set_result r c = .error e)
    ∧ (∀ m, ∃ e, t.set_error m = .error e) :=
  terminal_ops_all_raise _ (Or.inl rfl)

/-- C10: whenever `BioAgeDataValidator.validate` returns, the returned
`ok` flag is `true` exactly when the returned error list is empty, so
branching on a non-empty error list is equivalent to branching on `ok`. -/
theorem validate_ok_iff_no_errors (rf : Option (List String)) (data : Answers)
    (ok : Bool) (errs : List ValidationErr)
    (h : bioAgeValidate rf data = .ok (ok, errs)) :
    (ok = true ↔ errs = []) ∧ (ok = false ↔ errs ≠ []) := by
  unfold bioAgeValidate at h
  cases hage : domainCheckAge data with
  | error e => rw [hage] at h; cases h
  | ok ageErrs =>
    rw [hage] at h
    simp only [Except.ok.injEq, Prod.mk.injEq] at h
    obtain ⟨hok, herrs⟩ := h
    subst herrs
    subst hok
    constructor
    · simp [List.length_eq_zero]
    · simp [List.length_eq_zero]

/-- Closed witness for `validate_ok_iff_no_errors`: empty answers against
the default required list yield `ok = false` with one error. -/
theorem validate_ok_iff_no_errors_witness :
    (false = true ↔ ([⟨"age", "Поле обязательно"⟩] : List ValidationErr) = [])
    ∧ (false = false ↔ ([⟨"age", "Поле обязательно"⟩] : List ValidationErr) ≠ []) :=
  validate_ok_iff_no_errors none [] false [⟨"age", "Поле обязательно"⟩] rfl

/-! ## Wallets, transactions, models, users, and the system state -/

/-- Transaction type (`models/enum.py:TransactionType`). -/
inductive TxType where
  | TOPUP
  | CHARGE
deriving DecidableEq, Repr

/-- An immutable ledger entry (`models/transaction.py:Transaction`). -/
structure Txn where
  user_id : Nat
  tx_type : TxType
  amount : Int
  task_id : Option Nat := none
deriving DecidableEq, Repr

/-- Signed contribution of a transaction to a balance
(`Transaction.signed_amount`). -/
def Txn.signed (tx : Txn) : Int :=
  match tx.tx_type with
  | .TOPUP => tx.amount
  | .CHARGE => -tx.amount

/-- ML model metadata row (`models/ml_model.py:MLModel`). -/
structure MLModelMeta where
  id : Nat
  name : String
  price_per_task : Int
  feature_names : List String
deriving DecidableEq, Repr

/-- User role (`models/enum.py:UserRole`). -/
inductive Role where
  | USER
  | ADMIN
deriving DecidableEq, Repr

/-- A user row; only the fields the core protocol reads. -/
structure UserRec where
  id : Nat
  email : String
  role : Role
deriving DecidableEq, Repr

/-- A queue message; the worker reads only `payload["task_id"]` (the
features and model name it re-derives from the database). -/
structure Msg where
  task_id : String
deriving DecidableEq, Repr

/-- The persistent state of the deployed system: the relational store
(users, wallets, transactions, tasks, model metadata — the last seeded at
startup and never mutated by any route) plus the RabbitMQ queue. -/
structure SysState where
  nextUserId : Nat := 0
  nextTaskId : Nat := 0
  users : List UserRec := []
  wallets : List (Nat × Int) := []
  txs : List Txn := []
  tasks : List Task := []
  queue : List Msg := []
  mlModels : List MLModelMeta := []
deriving DecidableEq, Repr

/-- `wallet_crud.get_wallet_by_user_id`. -/
def lookupWallet : List (Nat × Int) → Nat → Option Int
  | [], _ => none
  | (u, b) :: rest, uid => if u = uid then some b else lookupWallet rest uid

/-- Persist a changed balance for an existing wallet row. -/
def setWallet : List (Nat × Int) → Nat → Int → List (Nat × Int)
  | [], _, _ => []
  | (u, b) :: rest, uid, nb =>
    if u = uid then (u, nb) :: rest else (u, b) :: setWallet rest uid nb

/-- `task_crud.get_task_by_external_id` (first row matching the unique
external identifier). -/
def findTaskExt : List Task → String → Option Task
  | [], _ => none
  | t :: rest, ext => if t.external_id = ext then some t else findTaskExt rest ext

/-- `task_crud.get_task_by_id`. -/
def findTaskId : List Task → Nat → Option Task
  | [], _ => none
  | t :: rest, i => if t.id = i then some t else findTaskId rest i

/-- `task_crud.update_task`: replace the row with the matching primary key. -/
def replaceTasksL (l : List Task) (t : Task) : List Task :=
  l.map fun u => if u.id = t.id then t else u

/-- State-level task update. -/
def replaceTask (s : SysState) (t : Task) : SysState :=
  { s with tasks := replaceTasksL s.tasks t }

/-- `ml_model_crud.get_model_by_id`. -/
def findModel : List MLModelMeta → Nat → Option MLModelMeta
  | [], _ => none
  | m :: rest, i => if m.id = i then some m else findModel rest i

/-- `user_crud.get_user_by_email`. -/
def findUserByEmail : List UserRec → String → Option UserRec
  | [], _ => none
  | u :: rest, e => if u.email = e then some u else findUserByEmail rest e

/-! ## Billing (`app/services/billing.py`) and registration (`app/services/auth.py`) -/

/-- `BillingService.can_pay`: requires a wallet, raises on a negative
amount (from `Wallet.can_pay`), else returns `balance >= amount`. -/
def billing_can_pay (s : SysState) (uid : Nat) (amount : Int) : Except String Bool :=
  match lookupWallet s.wallets uid with
  | none => .error "У пользователя нет кошелька"
  | some b =>
    if amount < 0 then .error "Сумма не может быть отрицательной"
    else .ok (decide (amount ≤ b))

/-- `BillingService.topup`: wallet must exist, amount must be positive;
increments the balance and appends the `TOPUP` transaction in the same
atomic unit.  Every raising path precedes every mutation, so `.error`
leaves the state untouched. -/
def topup (s : SysState) (uid : Nat) (amount : Int) : Except String (SysState × Txn) :=
  match lookupWallet s.wallets uid with
  | none => .error "У пользователя нет кошелька"
  | some b =>
    if amount ≤ 0 then .error "Сумма пополнения должна быть > 0"
    else
      let tx : Txn := ⟨uid, .TOPUP, amount, none⟩
      .ok ({ s with wallets := setWallet s.wallets uid (b + amount), txs := s.txs ++ [tx] }, tx)

/-- `BillingService.charge_after_success`: wallet must exist, amount must
be positive, balance must cover it; decrements the balance and appends
the `CHARGE` transaction referencing the task in the same atomic unit.
Every raising path precedes every mutation, so `.error` leaves the state
untouched. -/
def charge_after_success (s : SysState) (uid : Nat) (amount : Int) (task_id : Nat) :
    Except String (SysState × Txn) :=
  match lookupWallet s.wallets uid with
  | none => .error "У пользователя нет кошелька"
  | some b =>
    if amount ≤ 0 then .error "Сумма списания должна быть > 0"
    else if b < amount then .error "Недостаточно средств"
    else
      let tx : Txn := ⟨uid, .CHARGE, amount, some task_id⟩
      .ok ({ s with wallets := setWallet s.wallets uid (b - amount), txs := s.txs ++ [tx] }, tx)

/-- `email.strip().lower()`: drop surrounding whitespace, then lowercase
every character. -/
def strNorm (e : String) : String :=
  ⟨(((e.data.dropWhile Char.isWhitespace).reverse.dropWhile
      Char.isWhitespace).reverse).map Char.toLower⟩

/-- `RegAuthService.register`: normalizes the email, requires a password
of at least 8 characters and a fresh email, creates the user and — for
the `USER` role only — a wallet with balance 0 (and no transaction). -/
def register (s : SysState) (email pw : String) (role : Role) : Except String SysState :=
  if pw.length < 8 then .error "Пароль должен быть не короче 8 символов"
  else
    match findUserByEmail s.users (strNorm email) with
    | some _ => .error "Пользователь с таким email уже существует"
    | none =>
      let uid := s.nextUserId
      .ok { s with
            users := s.users ++ [⟨uid, strNorm email, role⟩],
            wallets := if role = .USER then s.wallets ++ [(uid, 0)] else s.wallets,
            nextUserId := uid + 1 }

/-! ## Ledger sums -/

/-- Sum of the user's `TOPUP` amounts. -/
def topupSum (uid : Nat) : List Txn → Int
  | [] => 0
  | tx :: rest =>
    (if tx.user_id = uid ∧ tx.tx_type = .TOPUP then tx.amount else 0) + topupSum uid rest

/-- Sum of the user's `CHARGE` amounts. -/
def chargeSum (uid : Nat) : List Txn → Int
  | [] => 0
  | tx :: rest =>
    (if tx.user_id = uid ∧ tx.tx_type = .CHARGE then tx.amount else 0) + chargeSum uid rest

theorem topupSum_append (uid : Nat) (l1 l2 : List Txn) :
    topupSum uid (l1 ++ l2) = topupSum uid l1 + topupSum uid l2 := by
  induction l1 with
  | nil => simp [topupSum]
  | cons tx rest ih => simp [topupSum, ih]; ring

theorem chargeSum_append (uid : Nat) (l1 l2 : List Txn) :
    chargeSum uid (l1 ++ l2) = chargeSum uid l1 + chargeSum uid l2 := by
  induction l1 with
  | nil => simp [chargeSum]
  | cons tx rest ih => simp [chargeSum, ih]; ring

/-- Net ledger value of a user's transaction history. -/
def ledgerSum (uid : Nat) (txs : List Txn) : Int :=
  topupSum uid txs - chargeSum uid txs

/-! ## Wallet-list lemmas -/

theorem lookupWallet_setWallet_self {ws : List (Nat × Int)} {uid : Nat} {b : Int}
    (h : lookupWallet ws uid = some b) (nb : Int) :
    lookupWallet (setWallet ws uid nb) uid = some nb := by
  induction ws with
  | nil => cases h
  | cons w rest ih =>
    obtain ⟨u, bb⟩ := w
    by_cases hu : u = uid
    · simp [lookupWallet, setWallet, hu]
    · simp only [lookupWallet, setWallet, if_neg hu] at h ⊢
      exact ih h

theorem lookupWallet_setWallet_other {ws : List (Nat × Int)} {uid uid' : Nat} (nb : Int)
    (h : uid' ≠ uid) :
    lookupWallet (setWallet ws uid nb) uid' = lookupWallet ws uid' := by
  induction ws with
  | nil => rfl
  | cons w rest ih =>
    obtain ⟨u, bb⟩ := w
    by_cases hu : u = uid
    · subst hu
      simp [lookupWallet, setWallet, Ne.symm h]
    · simp only [setWallet, if_neg hu, lookupWallet]
      by_cases hu' : u = uid'
      · simp [hu']
      · simp [hu', ih]

theorem setWallet_map_fst (ws : List (Nat × Int)) (uid : Nat) (nb : Int) :
    (setWallet ws uid nb).map Prod.fst = ws.map Prod.fst := by
  induction ws with
  | nil => rfl
  | cons w rest ih =>
    obtain ⟨u, bb⟩ := w
    by_cases hu : u = uid <;> simp [setWallet, hu, ih]

/-- C9: `charge_after_success` fails exactly when the user has no wallet,
the amount is non-positive, or the balance cannot cover the amount (and
since in the Python every raising path precedes every mutation, a failure
leaves balance and transactions untouched — here, no new state is
produced at all); on success it decrements the balance by exactly the
amount and appends the one `CHARGE` transaction referencing the task. -/
theorem charge_after_success_spec (s : SysState) (uid : Nat) (amount : Int) (tid : Nat) :
    ((∃ e, charge_after_success s uid amount tid = .error e) ↔
      (lookupWallet s.wallets uid = none ∨ amount ≤ 0 ∨
        ∃ b, lookupWallet s.wallets uid = some b ∧ b < amount))
    ∧ (∀ s' tx, charge_after_success s uid amount tid = .ok (s', tx) →
        ∃ b, lookupWallet s.wallets uid = some b ∧ 0 < amount ∧ amount ≤ b ∧
          lookupWallet s'.wallets uid = some (b - amount) ∧
          s'.txs = s.txs ++ [tx] ∧
          tx = ⟨uid, .CHARGE, amount, some tid⟩ ∧
          s'.tasks = s.tasks ∧ s'.users = s.users ∧ s'.queue = s.queue) := by
  constructor
  · cases hw : lookupWallet s.wallets uid with
    | none => simp [charge_after_success, hw]
    | some b =>
      by_cases ha : amount ≤ 0
      · simp [charge_after_success, hw, ha]
      · by_cases hb : b < amount
        · simp only [charge_after_success, hw, if_neg ha, if_pos hb]
          constructor
          · intro _
            exact Or.inr (Or.inr ⟨b, rfl, hb⟩)
          · intro _
            exact ⟨_, rfl⟩
        · simp only [charge_after_success, hw, if_neg ha, if_neg hb]
          constructor
          · rintro ⟨e, he⟩
            cases he
          · rintro (h | h | ⟨b', hb', hlt⟩)
            · cases h
            · exact absurd h ha
            · injection hb' with hbb
              subst hbb
              exact absurd hlt hb
  · intro s' tx h
    cases hw : lookupWallet s.wallets uid with
    | none =>
      simp only [charge_after_success, hw] at h
      cases h
    | some b =>
      have hw' : lookupWallet s.wallets uid = some b := hw
      simp only [charge_after_success, hw] at h
      by_cases ha : amount ≤ 0
      · rw [if_pos ha] at h; cases h
      · rw [if_neg ha] at h
        by_cases hb : b < amount
        · rw [if_pos hb] at h; cases h
        · rw [if_neg hb] at h
          simp only [Except.ok.injEq, Prod.mk.injEq] at h
          obtain ⟨hs', htx⟩ := h
          subst hs'
          subst htx
          refine ⟨b, rfl, by omega, by omega, ?_, rfl, rfl, rfl, rfl, rfl⟩
          exact lookupWallet_setWallet_self hw' _

/-- Closed witness for `charge_after_success_spec` at a concrete state:
one wallet with balance 50, charging 25 for task 7. -/
theorem charge_after_success_spec_witness :
    let s : SysState := { nextUserId := 1, wallets := [(0, 50)],
                          txs := [⟨0, .TOPUP, 50, none⟩] }
    ((∃ e, charge_after_success s 0 25 7 = .error e) ↔
      (lookupWallet s.wallets 0 = none ∨ (25 : Int) ≤ 0 ∨
        ∃ b, lookupWallet s.wallets 0 = some b ∧ b < 25))
    ∧ (∀ s' tx, charge_after_success s 0 25 7 = .ok (s', tx) →
        ∃ b, lookupWallet s.wallets 0 = some b ∧ (0 : Int) < 25 ∧ 25 ≤ b ∧
          lookupWallet s'.wallets 0 = some (b - 25) ∧
          s'.txs = s.txs ++ [tx] ∧
          tx = ⟨0, .CHARGE, 25, some 7⟩ ∧
          s'.tasks = s.tasks ∧ s'.users = s.users ∧ s'.queue = s.queue) :=
  charge_after_success_spec _ 0 25 7

/-! ## Runtime ML model (`app/ml/runtime_model.py`) -/

/-- The non-database environment of one handler run: whether
`RuntimeMLModel.__post_init__` raises for reasons outside the database
(artifact file missing, meta.json mismatch), and the behaviour of the
pluggable predictor (which may raise). -/
structure MLEnv where
  initExc : Option String := none
  predictFn : Answers → Except String ScoreResult

/-- `RuntimeMLModel.__post_init__`: raises when `feature_names` is empty,
or when the environment-dependent artifact checks fail. -/
def runtimeInit (env : MLEnv) (meta : MLModelMeta) : Except String Unit :=
  if meta.feature_names = [] then .error "MLModel.feature_names is empty"
  else
    match env.initExc with
    | some e => .error e
    | none => .ok ()

/-- `MLModel.validate_meta` (called on the synchronous path only). -/
def validate_meta (meta : MLModelMeta) : Except String Unit :=
  if meta.feature_names = [] then .error "feature_names не должен быть пустым"
  else if meta.price_per_task ≤ 0 then .error "price_per_task должен быть > 0"
  else .ok ()

/-! ## The worker handler (`worker/main.py:on_message`) -/

/-- Positive vs negative acknowledgment; the code only ever nacks with
`requeue=False`, so `nack` never re-queues. -/
inductive Ack where
  | ack
  | nack
deriving DecidableEq, Repr

/-- The generic `except`-handler of `on_message`: re-load the task by its
external id and, when it exists and is not terminal, set the worker id
and mark it `FAILED` with the exception text (`Task.set_error` cannot
raise there because the status was just checked to be non-terminal). -/
def failCurrentTask (s : SysState) (ext wid emsg : String) : SysState :=
  match findTaskExt s.tasks ext with
  | none => s
  | some t =>
    if t.status = .DONE ∨ t.status = .FAILED then s
    else replaceTask s { t with worker_id := some wid, error_message := some emsg,
                                status := .FAILED }

/-- The worker's message handler, as one atomic state transformer.
Branches, in source order: task lookup (a missing task raises and hence
reaches the generic handler, which nacks without requeue); the
idempotency gate on terminal statuses; model lookup; runtime
construction; re-validation (a raising validator reaches the generic
handler); the balance gate; `start_processing` only from `VALIDATED`;
predict; the `charged_amount is None`-guarded charge; `set_result`. -/
def on_message (env : MLEnv) (wid : String) (s : SysState) (m : Msg) : SysState × Ack :=
  match findTaskExt s.tasks m.task_id with
  | none => (failCurrentTask s m.task_id wid "Task not found in DB", .nack)
  | some task =>
    if task.status = .DONE ∨ task.status = .FAILED then (s, .ack)
    else
      match findModel s.mlModels task.model_id with
      | none =>
        (replaceTask s { task with
                         worker_id := some wid,
                         error_message := some "ML модель не найдена",
                         status := .FAILED }, .ack)
      | some meta =>
        match runtimeInit env meta with
        | .error e => (failCurrentTask s m.task_id wid e, .nack)
        | .ok _ =>
          match bioAgeValidate (some meta.feature_names) task.answers with
          | .error _ => (failCurrentTask s m.task_id wid "TypeError", .nack)
          | .ok (_, errorsObj) =>
            if errorsObj = [] then
              match billing_can_pay s task.user_id meta.price_per_task with
              | .error e => (failCurrentTask s m.task_id wid e, .nack)
              | .ok canPay =>
                if canPay then
                  let t1 := if task.status = .VALIDATED
                            then { task with status := .PROCESSING, worker_id := some wid }
                            else { task with worker_id := some wid }
                  let s1 := replaceTask s t1
                  match env.predictFn task.answers with
                  | .error e => (failCurrentTask s1 m.task_id wid e, .nack)
                  | .ok result =>
                    match (if t1.charged_amount = none
                           then (charge_after_success s1 t1.user_id meta.price_per_task
                                   t1.id).map Prod.fst
                           else .ok s1) with
                    | .error e => (failCurrentTask s1 m.task_id wid e, .nack)
                    | .ok s2 =>
                      match t1.set_result result meta.price_per_task with
                      | .error e => (failCurrentTask s2 m.task_id wid e, .nack)
                      | .ok t2 => (replaceTask s2 t2, .ack)
                else
                  (replaceTask s { task with
                                   worker_id := some wid,
                                   error_message := some "Недостаточно средств",
                                   status := .FAILED }, .ack)
            else
              (replaceTask s { task with
                               validation_errors := errorsObj,
                               worker_id := some wid,
                               error_message := some "Validation failed in worker",
                               status := .FAILED }, .ack)

/-! ## The synchronous run path (`app/services/task.py`) -/

/-- `TaskService._load_runtime_model`: model lookup, `validate_meta`,
then `RuntimeMLModel` construction. -/
def load_runtime_model (env : MLEnv) (s : SysState) (model_id : Nat) :
    Except String MLModelMeta :=
  match findModel s.mlModels model_id with
  | none => .error "ML модель не найдена"
  | some meta =>
    match validate_meta meta with
    | .error e => .error e
    | .ok _ =>
      match runtimeInit env meta with
      | .error e => .error e
      | .ok _ => .ok meta

/-- `TaskService._process`.  The source loads the runtime model and then,
on its very next line (the `can_pay` call), dereferences
`model.price_per_task` on the `RuntimeMLModel` wrapper.  `RuntimeMLModel`
is a plain dataclass with fields `meta`, `validator` and `predictor`
only — no `price_per_task` attribute, property or `__getattr__` — so
that access raises `AttributeError` unconditionally, outside every
`try`.  A successful model load therefore always propagates the
exception with no mutation performed; the balance check, validation,
prediction, charge and finalization below it in the source are dead
code.  A `.error` result models the Python exception propagating out of
`_process` with the store unchanged. -/
def processTask (env : MLEnv) (s : SysState) (task : Task) :
    SysState × Except String Task :=
  match load_runtime_model env s task.model_id with
  | .error e => (s, .error e)
  | .ok _ =>
    (s, .error "AttributeError: 'RuntimeMLModel' object has no attribute 'price_per_task'")

/-- `task_crud.create_task` as used by `create_draft` / `run_task`: a new
`CREATED` row with a storage-assigned id and a fresh external uuid. -/
def create_task_row (s : SysState) (uid mid : Nat) (answers : Answers) (ext : String) :
    SysState × Task :=
  let t : Task := { id := s.nextTaskId, user_id := uid, model_id := mid,
                    external_id := ext, answers := answers }
  ({ s with tasks := s.tasks ++ [t], nextTaskId := s.nextTaskId + 1 }, t)

/-- `TaskService.run_task_by_id`: refuses missing and terminal tasks,
then runs `_process`. -/
def run_task_by_id (env : MLEnv) (s : SysState) (tid : Nat) :
    SysState × Except String Task :=
  match findTaskId s.tasks tid with
  | none => (s, .error "Задача не найдена")
  | some task =>
    if task.status = .DONE ∨ task.status = .FAILED then
      (s, .error "Нельзя запускать задачу в терминальном статусе")
    else processTask env s task

/-- `TaskService.run_task`: create the row, then `_process`. -/
def run_task_fresh (env : MLEnv) (s : SysState) (uid mid : Nat) (answers : Answers)
    (ext : String) : SysState × Except String Task :=
  let p := create_task_row s uid mid answers ext
  processTask env p.1 p.2

/-! ## The queue-submitting routes (`app/routes/task.py`) -/

/-- The `/predict` route: create a draft, quick-validate, and either keep
it `CREATED` with the errors (422, nothing published) or mark it
`VALIDATED` (by direct status assignment in the route) and publish the
message.  An exception from runtime construction or a raising validator
surfaces as a 500 with the draft untouched. -/
def predict_route (env : MLEnv) (s : SysState) (uid mid : Nat) (answers : Answers)
    (ext : String) : SysState :=
  let p := create_task_row s uid mid answers ext
  let s1 := p.1
  let task := p.2
  match findModel s1.mlModels mid with
  | none =>
    replaceTask s1 { task with error_message := some "ML модель не найдена",
                               status := .FAILED }
  | some meta =>
    match runtimeInit env meta with
    | .error _ => s1
    | .ok _ =>
      match bioAgeValidate (some meta.feature_names) task.answers with
      | .error _ => s1
      | .ok (_, errorsObj) =>
        if errorsObj = [] then
          let t1 := { task with validation_errors := [], status := .VALIDATED }
          let s2 := replaceTask s1 t1
          { s2 with queue := s2.queue ++ [⟨ext⟩] }
        else
          replaceTask s1 { task with validation_errors := errorsObj, status := .CREATED }

/-- The `/tasks/:id/run` route: terminal tasks are returned unchanged;
otherwise quick-validate and either demote to `CREATED` with the errors
(422, nothing published) or mark `VALIDATED` and publish. -/
def run_route (env : MLEnv) (s : SysState) (ext : String) : SysState :=
  match findTaskExt s.tasks ext with
  | none => s
  | some task =>
    if task.status = .DONE ∨ task.status = .FAILED then s
    else
      match findModel s.mlModels task.model_id with
      | none =>
        replaceTask s { task with error_message := some "ML модель не найдена",
                                  status := .FAILED }
      | some meta =>
        match runtimeInit env meta with
        | .error _ => s
        | .ok _ =>
          match bioAgeValidate (some meta.feature_names) task.answers with
          | .error _ => s
          | .ok (_, errorsObj) =>
            if errorsObj = [] then
              let t1 := { task with validation_errors := [], status := .VALIDATED }
              let s2 := replaceTask s t1
              { s2 with queue := s2.queue ++ [⟨ext⟩] }
            else
              replaceTask s { task with validation_errors := errorsObj, status := .CREATED }

/-! ## The system step relation -/

/-- A generated external uuid is fresh for the current store. -/
def extFresh (s : SysState) (ext : String) : Prop :=
  ∀ t ∈ s.tasks, t.external_id ≠ ext

/-- One atomic operation of the deployed system.  Worker consumption
keeps the message in the queue (at-least-once delivery allows arbitrary
redelivery); `ackRemove` models the broker dropping an acknowledged or
dead-lettered message. -/
inductive Step : SysState → SysState → Prop where
  | stepRegister (s s' : SysState) (email pw : String) (role : Role) :
      register s email pw role = .ok s' → Step s s'
  | stepTopup (s s' : SysState) (uid : Nat) (amount : Int) (tx : Txn) :
      topup s uid amount = .ok (s', tx) → Step s s'
  | stepCreateDraft (s : SysState) (uid mid : Nat) (answers : Answers) (ext : String) :
      extFresh s ext → Step s (create_task_row s uid mid answers ext).1
  | stepAddAnswer (s : SysState) (tid : Nat) (f : String) (v : PyVal) (t t' : Task) :
      findTaskId s.tasks tid = some t → t.add_answer f v = .ok t' →
      Step s (replaceTask s t')
  | stepPredictRoute (s : SysState) (env : MLEnv) (uid mid : Nat) (answers : Answers)
      (ext : String) :
      extFresh s ext → Step s (predict_route env s uid mid answers ext)
  | stepRunRoute (s : SysState) (env : MLEnv) (ext : String) :
      Step s (run_route env s ext)
  | stepSyncRunById (s : SysState) (env : MLEnv) (tid : Nat) :
      Step s (run_task_by_id env s tid).1
  | stepSyncRunFresh (s : SysState) (env : MLEnv) (uid mid : Nat) (answers : Answers)
      (ext : String) :
      extFresh s ext → Step s (run_task_fresh env s uid mid answers ext).1
  | stepWorker (s : SysState) (env : MLEnv) (wid : String) (m : Msg) :
      m ∈ s.queue → Step s (on_message env wid s m).1
  | stepAckRemove (s : SysState) (m : Msg) :
      m ∈ s.queue → Step s { s with queue := s.queue.erase m }

/-- States reachable from a freshly initialized deployment (empty store,
model metadata seeded by `init_db` and immutable afterwards). -/
inductive Reachable : SysState → Prop where
  | init (models : List MLModelMeta) : Reachable { mlModels := models }
  | step {s s' : SysState} : Reachable s → Step s s' → Reachable s'

/-! ## The system invariant -/

/-- The inductive invariant of every reachable state; the fields after
the structural ones are, in order: the charge/DONE pairing, the absence
of at-rest `PROCESSING` rows (handlers always drive a task from
`PROCESSING` to a terminal status before committing control back), the
queue-message guarantee (a pending message's task exists, left `CREATED`,
and — while still `VALIDATED` — its answers pass validation against its
model), and the wallet/ledger laws. -/
structure Inv (s : SysState) : Prop where
  tasksIdLt : ∀ i ∈ s.tasks.map Task.id, i < s.nextTaskId
  tasksIdNodup : (s.tasks.map Task.id).Nodup
  tasksExtNodup : (s.tasks.map Task.external_id).Nodup
  chargeWhenDone : ∀ t ∈ s.tasks, (t.charged_amount ≠ none ↔ t.status = .DONE)
  noProcessing : ∀ t ∈ s.tasks, t.status ≠ .PROCESSING
  queueOk : ∀ m ∈ s.queue, ∃ t ∈ s.tasks, t.external_id = m.task_id ∧
      t.status ≠ .CREATED ∧
      (t.status = .VALIDATED →
        ∀ meta, findModel s.mlModels t.model_id = some meta →
          bioAgeValidate (some meta.feature_names) t.answers = .ok (true, []))
  walletUidLt : ∀ u ∈ s.wallets.map Prod.fst, u < s.nextUserId
  walletNodup : (s.wallets.map Prod.fst).Nodup
  ledger : ∀ uid b, lookupWallet s.wallets uid = some b → b = ledgerSum uid s.txs
  txHasWallet : ∀ tx ∈ s.txs, lookupWallet s.wallets tx.user_id ≠ none

/-! ## Lemmas about the task list and wallet list primitives -/

theorem findTaskExt_mem {l : List Task} {ext : String} {t : Task}
    (h : findTaskExt l ext = some t) : t ∈ l ∧ t.external_id = ext := by
  induction l with
  | nil => cases h
  | cons x rest ih =>
    by_cases hx : x.external_id = ext
    · simp only [findTaskExt, if_pos hx] at h
      injection h with h
      subst h
      exact ⟨List.mem_cons_self _ _, hx⟩
    · simp only [findTaskExt, if_neg hx] at h
      obtain ⟨hm, he⟩ := ih h
      exact ⟨List.mem_cons_of_mem _ hm, he⟩

theorem findTaskExt_of_mem {l : List Task} (hnd : (l.map Task.external_id).Nodup)
    {t : Task} (ht : t ∈ l) : findTaskExt l t.external_id = some t := by
  induction l with
  | nil => cases ht
  | cons x rest ih =>
    simp only [List.map_cons, List.nodup_cons] at hnd
    rcases List.mem_cons.mp ht with h | h
    · subst h
      simp [findTaskExt]
    · by_cases hx : x.external_id = t.external_id
      · exfalso
        exact hnd.1 (hx ▸ List.mem_map_of_mem Task.external_id h)
      · simp only [findTaskExt, if_neg hx]
        exact ih hnd.2 h

theorem findTaskId_mem {l : List Task} {i : Nat} {t : Task}
    (h : findTaskId l i = some t) : t ∈ l ∧ t.id = i := by
  induction l with
  | nil => cases h
  | cons x rest ih =>
    by_cases hx : x.id = i
    · simp only [findTaskId, if_pos hx] at h
      injection h with h
      subst h
      exact ⟨List.mem_cons_self _ _, hx⟩
    · simp only [findTaskId, if_neg hx] at h
      obtain ⟨hm, he⟩ := ih h
      exact ⟨List.mem_cons_of_mem _ hm, he⟩

theorem task_id_inj {l : List Task} (hnd : (l.map Task.id).Nodup)
    {t u : Task} (ht : t ∈ l) (hu : u ∈ l) (hid : t.id = u.id) : t = u := by
  induction l with
  | nil => cases ht
  | cons x rest ih =>
    simp only [List.map_cons, List.nodup_cons] at hnd
    rcases List.mem_cons.mp ht with h1 | h1 <;> rcases List.mem_cons.mp hu with h2 | h2
    · rw [h1, h2]
    · exfalso
      subst h1
      exact hnd.1 (hid ▸ List.mem_map_of_mem Task.id h2)
    · exfalso
      subst h2
      exact hnd.1 (hid ▸ List.mem_map_of_mem Task.id h1)
    · exact ih hnd.2 h1 h2

theorem replaceTasksL_map_id (l : List Task) (t : Task) :
    (replaceTasksL l t).map Task.id = l.map Task.id := by
  unfold replaceTasksL
  rw [List.map_map]
  apply List.map_congr_left
  intro x _
  by_cases hx : x.id = t.id <;> simp [Function.comp, hx]

theorem mem_replaceTasksL {l : List Task} {t u : Task}
    (hu : u ∈ replaceTasksL l t) : u = t ∨ u ∈ l := by
  unfold replaceTasksL at hu
  obtain ⟨x, hx, hfx⟩ := List.mem_map.mp hu
  by_cases hid : x.id = t.id
  · rw [if_pos hid] at hfx
    exact Or.inl hfx.symm
  · rw [if_neg hid] at hfx
    exact Or.inr (hfx ▸ hx)

theorem mem_replaceTasksL_self {l : List Task} {t x : Task}
    (hx : x ∈ l) (hid : x.id = t.id) : t ∈ replaceTasksL l t := by
  unfold replaceTasksL
  refine List.mem_map.mpr ⟨x, hx, ?_⟩
  rw [if_pos hid]

theorem mem_replaceTasksL_of_ne {l : List Task} {t u : Task}
    (hu : u ∈ l) (hid : u.id ≠ t.id) : u ∈ replaceTasksL l t := by
  unfold replaceTasksL
  refine List.mem_map.mpr ⟨u, hu, ?_⟩
  rw [if_neg hid]

theorem replaceTasksL_map_ext {l : List Task} {t : Task}
    (h : ∀ x ∈ l, x.id = t.id → t.external_id = x.external_id) :
    (replaceTasksL l t).map Task.external_id = l.map Task.external_id := by
  induction l with
  | nil => rfl
  | cons x rest ih =>
    have hrest : ∀ x ∈ rest, x.id = t.id → t.external_id = x.external_id :=
      fun y hy => h y (List.mem_cons_of_mem _ hy)
    by_cases hx : x.id = t.id
    · simp only [replaceTasksL, List.map_cons, if_pos hx] at ih ⊢
      rw [h x (List.mem_cons_self _ _) hx]
      exact congrArg _ (ih hrest)
    · simp only [replaceTasksL, List.map_cons, if_neg hx] at ih ⊢
      exact congrArg _ (ih hrest)

theorem replaceTasksL_replaceTasksL {l : List Task} {t1 t2 : Task} (h : t2.id = t1.id) :
    replaceTasksL (replaceTasksL l t1) t2 = replaceTasksL l t2 := by
  unfold replaceTasksL
  rw [List.map_map]
  apply List.map_congr_left
  intro x _
  by_cases hx : x.id = t1.id
  · simp [Function.comp, hx, h]
  · simp [Function.comp, hx, h]

theorem findTaskExt_replaceTasksL_self {l : List Task}
    (hid : (l.map Task.id).Nodup) (hnd : (l.map Task.external_id).Nodup)
    {t0 t1 : Task} (h0 : t0 ∈ l)
    (hids : t1.id = t0.id) (hext : t1.external_id = t0.external_id) :
    findTaskExt (replaceTasksL l t1) t0.external_id = some t1 := by
  induction l with
  | nil => cases h0
  | cons x rest ih =>
    simp only [List.map_cons, List.nodup_cons] at hid hnd
    rcases List.mem_cons.mp h0 with h | h
    · subst h
      simp only [replaceTasksL, List.map_cons]
      rw [if_pos hids.symm]
      simp [findTaskExt, hext]
    · have hxne : x.external_id ≠ t0.external_id := by
        intro hc
        exact hnd.1 (hc ▸ List.mem_map_of_mem Task.external_id h)
      have hxid : ¬ x.id = t1.id := by
        intro hc
        exact hid.1 ((hids ▸ hc) ▸ List.mem_map_of_mem Task.id h)
      simp only [replaceTasksL, List.map_cons]
      rw [if_neg hxid]
      simp only [findTaskExt, if_neg hxne]
      exact ih hid.2 hnd.2 h

theorem lookupWallet_none_iff {ws : List (Nat × Int)} {uid : Nat} :
    lookupWallet ws uid = none ↔ uid ∉ ws.map Prod.fst := by
  induction ws with
  | nil => simp [lookupWallet]
  | cons w rest ih =>
    obtain ⟨u, b⟩ := w
    by_cases hu : u = uid
    · subst hu
      simp [lookupWallet]
    · simp only [lookupWallet, if_neg hu, List.map_cons, List.mem_cons]
      rw [ih]
      constructor
      · rintro h (hc | hc)
        · exact hu hc.symm
        · exact h hc
      · intro h hc
        exact h (Or.inr hc)

theorem lookupWallet_append (ws1 ws2 : List (Nat × Int)) (uid : Nat) :
    lookupWallet (ws1 ++ ws2) uid =
      match lookupWallet ws1 uid with
      | some b => some b
      | none => lookupWallet ws2 uid := by
  induction ws1 with
  | nil => simp [lookupWallet]
  | cons w rest ih =>
    obtain ⟨u, b⟩ := w
    by_cases hu : u = uid <;> simp [lookupWallet, hu, ih]

/-! ## Ledger sum helpers -/

theorem ledgerSum_append_single (uid : Nat) (txs : List Txn) (tx : Txn) :
    ledgerSum uid (txs ++ [tx]) =
      ledgerSum uid txs + (if tx.user_id = uid then tx.signed else 0) := by
  unfold ledgerSum
  rw [topupSum_append, chargeSum_append]
  cases htt : tx.tx_type <;>
    by_cases hu : tx.user_id = uid <;>
      simp [topupSum, chargeSum, Txn.signed, hu, htt] <;> ring

theorem ledgerSum_zero_of_no_tx {uid : Nat} {txs : List Txn}
    (h : ∀ tx ∈ txs, tx.user_id ≠ uid) : ledgerSum uid txs = 0 := by
  induction txs with
  | nil => rfl
  | cons tx rest ih =>
    have h1 : tx.user_id ≠ uid := h tx (List.mem_cons_self _ _)
    have h2 := ih fun y hy => h y (List.mem_cons_of_mem _ hy)
    unfold ledgerSum at h2 ⊢
    simp only [topupSum, chargeSum, h1, false_and, if_false]
    omega

/-! ## Inversion helpers for billing and validation -/

theorem charge_ok_inv {s : SysState} {uid : Nat} {amount : Int} {tid : Nat}
    {s' : SysState} {tx : Txn}
    (h : charge_after_success s uid amount tid = .ok (s', tx)) :
    ∃ b, lookupWallet s.wallets uid = some b ∧ 0 < amount ∧ amount ≤ b ∧
      tx = ⟨uid, .CHARGE, amount, some tid⟩ ∧
      s' = { s with wallets := setWallet s.wallets uid (b - amount),
                    txs := s.txs ++ [⟨uid, .CHARGE, amount, some tid⟩] } := by
  cases hw : lookupWallet s.wallets uid with
  | none =>
    simp only [charge_after_success, hw] at h
    cases h
  | some b =>
    simp only [charge_after_success, hw] at h
    by_cases ha : amount ≤ 0
    · rw [if_pos ha] at h; cases h
    · rw [if_neg ha] at h
      by_cases hb : b < amount
      · rw [if_pos hb] at h; cases h
      · rw [if_neg hb] at h
        simp only [Except.ok.injEq, Prod.mk.injEq] at h
        exact ⟨b, rfl, by omega, by omega, h.2.symm, h.1.symm⟩

theorem can_pay_ok_inv {s : SysState} {uid : Nat} {amount : Int} {c : Bool}
    (h : billing_can_pay s uid amount = .ok c) :
    ∃ b, lookupWallet s.wallets uid = some b ∧ 0 ≤ amount ∧ (c = true ↔ amount ≤ b) := by
  cases hw : lookupWallet s.wallets uid with
  | none =>
    simp only [billing_can_pay, hw] at h
    cases h
  | some b =>
    simp only [billing_can_pay, hw] at h
    by_cases ha : amount < 0
    · rw [if_pos ha] at h; cases h
    · rw [if_neg ha] at h
      injection h with h
      subst h
      exact ⟨b, rfl, by omega, by simp⟩

theorem bioAgeValidate_empty_true {rf : Option (List String)} {data : Answers} {b : Bool}
    (h : bioAgeValidate rf data = .ok (b, [])) : b = true := by
  unfold bioAgeValidate at h
  cases hage : domainCheckAge data with
  | error e => rw [hage] at h; cases h
  | ok ageErrs =>
    rw [hage] at h
    simp only [Except.ok.injEq, Prod.mk.injEq] at h
    obtain ⟨hok, herrs⟩ := h
    rw [herrs] at hok
    simpa using hok.symm

/-! ## Behaviour of the worker handler -/

/-- The idempotency gate: a message whose task is already terminal is
acknowledged with no state change at all. -/
theorem on_message_terminal (env : MLEnv) (wid : String) (s : SysState) (m : Msg)
    {t : Task} (hfind : findTaskExt s.tasks m.task_id = some t)
    (hterm : t.status = .DONE ∨ t.status = .FAILED) :
    on_message env wid s m = (s, .ack) := by
  unfold on_message
  rw [hfind]
  simp only [if_pos hterm]

/-- Master case analysis of one worker run on a `VALIDATED`, uncharged
task: either the run ends with the task `FAILED`, still uncharged, and
nothing else in the store changed; or it ends `DONE`, with the wallet
debited by exactly the model price and exactly one `CHARGE` transaction
referencing the task appended. -/
theorem on_message_validated_spec (env : MLEnv) (wid : String) (s : SysState) (m : Msg)
    {t : Task}
    (hidnd : (s.tasks.map Task.id).Nodup)
    (hextnd : (s.tasks.map Task.external_id).Nodup)
    (hfind : findTaskExt s.tasks m.task_id = some t)
    (hst : t.status = .VALIDATED)
    (hch : t.charged_amount = none) :
    ∃ t', t'.id = t.id ∧ t'.external_id = t.external_id ∧ t'.user_id = t.user_id ∧
      t'.model_id = t.model_id ∧ t'.answers = t.answers ∧
      ((t'.status = .FAILED ∧ t'.charged_amount = none ∧
          (on_message env wid s m).1 = { s with tasks := replaceTasksL s.tasks t' })
       ∨ (∃ meta b,
            findModel s.mlModels t.model_id = some meta ∧
            t'.status = .DONE ∧ t'.charged_amount = some meta.price_per_task ∧
            0 < meta.price_per_task ∧
            lookupWallet s.wallets t.user_id = some b ∧ meta.price_per_task ≤ b ∧
            (on_message env wid s m).1 =
              { s with tasks := replaceTasksL s.tasks t',
                       wallets := setWallet s.wallets t.user_id (b - meta.price_per_task),
                       txs := s.txs ++
                         [⟨t.user_id, .CHARGE, meta.price_per_task, some t.id⟩] })) := by
  obtain ⟨htmem, htext⟩ := findTaskExt_mem hfind
  have hterm : ¬ (t.status = .DONE ∨ t.status = .FAILED) := by rw [hst]; simp
  have hfind1 : findTaskExt (replaceTasksL s.tasks
      { t with status := TaskStatus.PROCESSING, worker_id := some wid }) m.task_id
      = some { t with status := TaskStatus.PROCESSING, worker_id := some wid } :=
    htext ▸ findTaskExt_replaceTasksL_self hidnd hextnd htmem rfl rfl
  cases hmodel : findModel s.mlModels t.model_id with
  | none =>
    refine ⟨{ t with
              worker_id := some wid,
              error_message := some "ML модель не найдена",
              status := .FAILED },
      rfl, rfl, rfl, rfl, rfl, Or.inl ⟨rfl, hch, ?_⟩⟩
    simp only [on_message, hfind, if_neg hterm, hmodel]
    rfl
  | some meta =>
    cases hinit : runtimeInit env meta with
    | error e =>
      refine ⟨{ t with
                worker_id := some wid,
                error_message := some e,
                status := .FAILED },
        rfl, rfl, rfl, rfl, rfl, Or.inl ⟨rfl, hch, ?_⟩⟩
      simp only [on_message, hfind, if_neg hterm, hmodel, hinit]
      simp only [failCurrentTask, hfind, if_neg hterm, replaceTask]
    | ok u =>
      cases u
      cases hval : bioAgeValidate (some meta.feature_names) t.answers with
      | error e =>
        refine ⟨{ t with
                  worker_id := some wid,
                  error_message := some "TypeError",
                  status := .FAILED },
          rfl, rfl, rfl, rfl, rfl, Or.inl ⟨rfl, hch, ?_⟩⟩
        simp only [on_message, hfind, if_neg hterm, hmodel, hinit, hval]
        simp only [failCurrentTask, hfind, if_neg hterm, replaceTask]
      | ok p =>
        obtain ⟨bOk, errs⟩ := p
        by_cases herrs : errs = []
        · subst herrs
          cases hcp : billing_can_pay s t.user_id meta.price_per_task with
          | error e =>
            refine ⟨{ t with
                      worker_id := some wid,
                      error_message := some e,
                      status := .FAILED },
              rfl, rfl, rfl, rfl, rfl, Or.inl ⟨rfl, hch, ?_⟩⟩
            simp only [on_message, hfind, if_neg hterm, hmodel, hinit, hval, hcp]
            simp only [reduceCtorEq, or_self, if_false, if_true, reduceIte]
            simp only [failCurrentTask, hfind, if_neg hterm, replaceTask]
          | ok canPay =>
            cases canPay with
            | false =>
              refine ⟨{ t with
                        worker_id := some wid,
                        error_message := some "Недостаточно средств",
                        status := .FAILED },
                rfl, rfl, rfl, rfl, rfl, Or.inl ⟨rfl, hch, ?_⟩⟩
              simp only [on_message, hfind, if_neg hterm, hmodel, hinit, hval, hcp]
              simp only [reduceCtorEq, or_self, if_false, if_true, reduceIte,
                Bool.false_eq_true]
              rfl
            | true =>
              cases hpred : env.predictFn t.answers with
              | error e =>
                refine ⟨{ t with
                          worker_id := some wid,
                          error_message := some e,
                          status := .FAILED },
                  rfl, rfl, rfl, rfl, rfl, Or.inl ⟨rfl, hch, ?_⟩⟩
                simp only [on_message, hfind, if_neg hterm, hmodel, hinit, hval, hcp,
                  hst, hpred]
                simp only [reduceCtorEq, or_self, if_false, if_true, reduceIte]
                simp only [failCurrentTask, replaceTask, hfind1]
                simp only [reduceCtorEq, or_self, if_false, reduceIte]
                rw [replaceTasksL_replaceTasksL]
                rfl
              | ok result =>
                cases hchg : charge_after_success
                    (replaceTask s { t with
                                     status := TaskStatus.PROCESSING,
                                     worker_id := some wid })
                    t.user_id meta.price_per_task t.id with
                | error e =>
                  simp only [replaceTask, hch] at hchg
                  refine ⟨{ t with
                            worker_id := some wid,
                            error_message := some e,
                            status := .FAILED },
                    rfl, rfl, rfl, rfl, rfl, Or.inl ⟨rfl, hch, ?_⟩⟩
                  simp only [on_message, hfind, if_neg hterm, hmodel, hinit, hval, hcp,
                    hst, hpred, hch, reduceCtorEq, or_self, if_false, if_true, reduceIte,
                    replaceTask, hchg, Except.map]
                  have hfind1n := hfind1
                  rw [hch] at hfind1n
                  simp only [failCurrentTask, replaceTask, hfind1n]
                  simp only [reduceCtorEq, or_self, if_false, reduceIte]
                  rw [replaceTasksL_replaceTasksL]
                  rfl
                | ok p2 =>
                  obtain ⟨s2, ctx⟩ := p2
                  obtain ⟨b, hw, hpos, hble, hctx, hs2⟩ := charge_ok_inv hchg
                  subst hs2
                  simp only [replaceTask, hch] at hchg hw
                  have hnle : ¬ meta.price_per_task ≤ 0 := by omega
                  refine ⟨{ t with
                            result := some result,
                            charged_amount := some meta.price_per_task,
                            status := .DONE,
                            worker_id := some wid },
                    rfl, rfl, rfl, rfl, rfl,
                    Or.inr ⟨meta, b, rfl, rfl, rfl, hpos, hw, hble, ?_⟩⟩
                  simp only [on_message, hfind, if_neg hterm, hmodel, hinit, hval, hcp,
                    hst, hpred, hch, reduceCtorEq, or_self, if_false, if_true, reduceIte,
                    replaceTask, hchg, Except.map]
                  simp only [Task.set_result]
                  simp only [reduceCtorEq, or_self, if_false, if_true, reduceIte,
                    if_neg hnle]
                  rw [replaceTasksL_replaceTasksL]
                  rfl
        · refine ⟨{ t with
                    validation_errors := errs,
                    worker_id := some wid,
                    error_message := some "Validation failed in worker",
                    status := .FAILED },
            rfl, rfl, rfl, rfl, rfl, Or.inl ⟨rfl, hch, ?_⟩⟩
          simp only [on_message, hfind, if_neg hterm, hmodel, hinit, hval,
            if_neg herrs]
          rfl


/-! ## More lookup/update lemmas -/

theorem task_ext_inj {l : List Task} (hnd : (l.map Task.external_id).Nodup)
    {t u : Task} (ht : t ∈ l) (hu : u ∈ l) (hext : t.external_id = u.external_id) :
    t = u := by
  induction l with
  | nil => cases ht
  | cons x rest ih =>
    simp only [List.map_cons, List.nodup_cons] at hnd
    rcases List.mem_cons.mp ht with h1 | h1 <;> rcases List.mem_cons.mp hu with h2 | h2
    · rw [h1, h2]
    · exfalso
      subst h1
      exact hnd.1 (hext ▸ List.mem_map_of_mem Task.external_id h2)
    · exfalso
      subst h2
      exact hnd.1 (hext ▸ List.mem_map_of_mem Task.external_id h1)
    · exact ih hnd.2 h1 h2

theorem findTaskId_of_mem {l : List Task} (hnd : (l.map Task.id).Nodup)
    {t : Task} (ht : t ∈ l) : findTaskId l t.id = some t := by
  induction l with
  | nil => cases ht
  | cons x rest ih =>
    simp only [List.map_cons, List.nodup_cons] at hnd
    rcases List.mem_cons.mp ht with h | h
    · subst h
      simp [findTaskId]
    · by_cases hx : x.id = t.id
      · exfalso
        exact hnd.1 (hx ▸ List.mem_map_of_mem Task.id h)
      · simp only [findTaskId, if_neg hx]
        exact ih hnd.2 h

theorem findTaskId_replaceTasksL_self {l : List Task}
    (hid : (l.map Task.id).Nodup) {t0 t1 : Task} (h0 : t0 ∈ l)
    (hids : t1.id = t0.id) :
    findTaskId (replaceTasksL l t1) t0.id = some t1 := by
  induction l with
  | nil => cases h0
  | cons x rest ih =>
    simp only [List.map_cons, List.nodup_cons] at hid
    rcases List.mem_cons.mp h0 with h | h
    · subst h
      simp only [replaceTasksL, List.map_cons]
      rw [if_pos hids.symm]
      simp [findTaskId, hids]
    · have hxid : ¬ x.id = t1.id := by
        intro hc
        exact hid.1 ((hids ▸ hc) ▸ List.mem_map_of_mem Task.id h)
      have hxid0 : ¬ x.id = t0.id := by
        intro hc
        exact hxid (hc.trans hids.symm)
      simp only [replaceTasksL, List.map_cons]
      rw [if_neg hxid]
      simp only [findTaskId, if_neg hxid0]
      exact ih hid.2 h

theorem replaceTasksL_append_fresh {l : List Task} {x t : Task}
    (hfresh : ∀ y ∈ l, y.id ≠ t.id) (hx : x.id = t.id) :
    replaceTasksL (l ++ [x]) t = l ++ [t] := by
  induction l with
  | nil =>
    simp [replaceTasksL, hx]
  | cons y rest ih =>
    have hy : y.id ≠ t.id := hfresh y (List.mem_cons_self _ _)
    simp only [List.cons_append, replaceTasksL, List.map_cons] at ih ⊢
    rw [if_neg hy]
    have := ih fun z hz => hfresh z (List.mem_cons_of_mem _ hz)
    rw [this]

theorem validate_meta_ok_inv {meta : MLModelMeta} {u : Unit}
    (h : validate_meta meta = .ok u) :
    meta.feature_names ≠ [] ∧ 0 < meta.price_per_task := by
  unfold validate_meta at h
  by_cases h1 : meta.feature_names = []
  · rw [if_pos h1] at h; cases h
  · rw [if_neg h1] at h
    by_cases h2 : meta.price_per_task ≤ 0
    · rw [if_pos h2] at h; cases h
    · exact ⟨h1, by omega⟩

theorem load_runtime_model_ok_inv {env : MLEnv} {s : SysState} {mid : Nat}
    {meta : MLModelMeta}
    (h : load_runtime_model env s mid = .ok meta) :
    findModel s.mlModels mid = some meta ∧ meta.feature_names ≠ [] ∧
      0 < meta.price_per_task := by
  unfold load_runtime_model at h
  cases hf : findModel s.mlModels mid with
  | none =>
    simp only [hf] at h
    cases h
  | some m =>
    simp only [hf] at h
    cases hv : validate_meta m with
    | error e =>
      simp only [hv] at h
      cases h
    | ok u =>
      simp only [hv] at h
      cases hi : runtimeInit env m with
      | error e =>
        simp only [hi] at h
        cases h
      | ok u2 =>
        simp only [hi, Except.ok.injEq] at h
        subst h
        obtain ⟨h1, h2⟩ := validate_meta_ok_inv hv
        exact ⟨rfl, h1, h2⟩

theorem charge_error_inv {s : SysState} {uid : Nat} {amount : Int} {tid : Nat} {e : String}
    (h : charge_after_success s uid amount tid = .error e) :
    lookupWallet s.wallets uid = none ∨ amount ≤ 0 ∨
      ∃ b, lookupWallet s.wallets uid = some b ∧ b < amount := by
  cases hw : lookupWallet s.wallets uid with
  | none => exact Or.inl rfl
  | some b =>
    simp only [charge_after_success, hw] at h
    by_cases ha : amount ≤ 0
    · exact Or.inr (Or.inl ha)
    · rw [if_neg ha] at h
      by_cases hb : b < amount
      · exact Or.inr (Or.inr ⟨b, rfl, hb⟩)
      · rw [if_neg hb] at h
        cases h


theorem set_error_ok_inv {t : Task} {msg : String} {t' : Task}
    (h : t.set_error msg = .ok t') :
    ¬ (t.status = .DONE ∨ t.status = .FAILED) ∧
      t' = { t with error_message := some msg, status := .FAILED } := by
  unfold Task.set_error at h
  by_cases hterm : t.status = .DONE ∨ t.status = .FAILED
  · rw [if_pos hterm] at h; cases h
  · rw [if_neg hterm] at h
    injection h with h
    exact ⟨hterm, h.symm⟩

/-- `_process` raises before any mutation: whatever the outcome, the
returned store is the input store, unchanged. -/
theorem processTask_state (env : MLEnv) (s : SysState) (task : Task) :
    (processTask env s task).1 = s := by
  unfold processTask
  cases load_runtime_model env s task.model_id <;> rfl


/-! ## Behaviour of the two queue-submitting routes -/

/-- Case analysis of the `/predict` route: the freshly created draft ends
`CREATED` or `FAILED` with nothing published, or `VALIDATED` with exactly
its message published; wallets and transactions are never touched. -/
theorem predict_route_spec (env : MLEnv) (s : SysState) (uid mid : Nat)
    (answers : Answers) (ext : String)
    (hids : ∀ y ∈ s.tasks, y.id ≠ s.nextTaskId) :
    ∃ t', t'.id = s.nextTaskId ∧ t'.external_id = ext ∧ t'.user_id = uid ∧
      t'.model_id = mid ∧ t'.answers = answers ∧ t'.charged_amount = none ∧
      ((predict_route env s uid mid answers ext =
          { s with tasks := s.tasks ++ [t'], nextTaskId := s.nextTaskId + 1 } ∧
          (t'.status = .CREATED ∨ t'.status = .FAILED))
       ∨ (predict_route env s uid mid answers ext =
          { s with tasks := s.tasks ++ [t'], nextTaskId := s.nextTaskId + 1,
                   queue := s.queue ++ [⟨ext⟩] } ∧
          t'.status = .VALIDATED ∧
          (∀ meta, findModel s.mlModels mid = some meta →
            bioAgeValidate (some meta.feature_names) answers = .ok (true, [])))) := by
  cases hmodel : findModel s.mlModels mid with
  | none =>
    refine ⟨{ id := s.nextTaskId, user_id := uid, model_id := mid, external_id := ext,
              answers := answers, error_message := some "ML модель не найдена",
              status := .FAILED },
      rfl, rfl, rfl, rfl, rfl, rfl, Or.inl ⟨?_, Or.inr rfl⟩⟩
    simp only [predict_route, create_task_row, hmodel, replaceTask]
    rw [replaceTasksL_append_fresh]
    · exact hids
    · rfl
  | some meta =>
    cases hinit : runtimeInit env meta with
    | error e =>
      refine ⟨{ id := s.nextTaskId, user_id := uid, model_id := mid, external_id := ext,
                answers := answers },
        rfl, rfl, rfl, rfl, rfl, rfl, Or.inl ⟨?_, Or.inl rfl⟩⟩
      simp only [predict_route, create_task_row, hmodel, hinit]
    | ok u =>
      cases u
      cases hval : bioAgeValidate (some meta.feature_names) answers with
      | error e =>
        refine ⟨{ id := s.nextTaskId, user_id := uid, model_id := mid,
                  external_id := ext, answers := answers },
          rfl, rfl, rfl, rfl, rfl, rfl, Or.inl ⟨?_, Or.inl rfl⟩⟩
        simp only [predict_route, create_task_row, hmodel, hinit, hval]
      | ok p =>
        obtain ⟨bOk, errs⟩ := p
        by_cases herrs : errs = []
        · subst herrs
          have hbok : bOk = true := bioAgeValidate_empty_true hval
          subst hbok
          refine ⟨{ id := s.nextTaskId, user_id := uid, model_id := mid,
                    external_id := ext, answers := answers,
                    validation_errors := [], status := .VALIDATED },
            rfl, rfl, rfl, rfl, rfl, rfl, Or.inr ⟨?_, rfl, ?_⟩⟩
          · simp only [predict_route, create_task_row, hmodel, hinit, hval, reduceIte,
              replaceTask]
            rw [replaceTasksL_append_fresh]
            · exact hids
            · rfl
          · intro meta2 hm2
            injection hm2 with hm2
            subst hm2
            exact hval
        · refine ⟨{ id := s.nextTaskId, user_id := uid, model_id := mid,
                    external_id := ext, answers := answers,
                    validation_errors := errs, status := .CREATED },
            rfl, rfl, rfl, rfl, rfl, rfl, Or.inl ⟨?_, Or.inl rfl⟩⟩
          simp only [predict_route, create_task_row, hmodel, hinit, hval,
            if_neg herrs, replaceTask]
          rw [replaceTasksL_append_fresh]
          · exact hids
          · rfl

/-- Case analysis of the `/tasks/:id/run` route. -/
theorem run_route_spec (env : MLEnv) (s : SysState) (ext : String) :
    run_route env s ext = s
    ∨ (∃ task t', findTaskExt s.tasks ext = some task ∧
        task.status ≠ .DONE ∧ task.status ≠ .FAILED ∧
        t'.id = task.id ∧ t'.external_id = task.external_id ∧
        t'.user_id = task.user_id ∧ t'.model_id = task.model_id ∧
        t'.answers = task.answers ∧ t'.charged_amount = task.charged_amount ∧
        ((run_route env s ext = { s with tasks := replaceTasksL s.tasks t' } ∧
            (t'.status = .FAILED ∨
             (t'.status = .CREATED ∧ ∃ meta bOk errs,
                findModel s.mlModels task.model_id = some meta ∧
                bioAgeValidate (some meta.feature_names) task.answers =
                  .ok (bOk, errs) ∧ errs ≠ [])))
         ∨ (run_route env s ext =
              { s with tasks := replaceTasksL s.tasks t',
                       queue := s.queue ++ [⟨ext⟩] } ∧
            t'.status = .VALIDATED ∧
            (∀ meta, findModel s.mlModels task.model_id = some meta →
              bioAgeValidate (some meta.feature_names) task.answers =
                .ok (true, []))))) := by
  cases hfind : findTaskExt s.tasks ext with
  | none =>
    left
    simp only [run_route, hfind]
  | some task =>
    by_cases hterm : task.status = .DONE ∨ task.status = .FAILED
    · left
      simp only [run_route, hfind, if_pos hterm]
    · push_neg at hterm
      cases hmodel : findModel s.mlModels task.model_id with
      | none =>
        right
        refine ⟨task, { task with
                        error_message := some "ML модель не найдена",
                        status := .FAILED },
          rfl, hterm.1, hterm.2, rfl, rfl, rfl, rfl, rfl, rfl,
          Or.inl ⟨?_, Or.inl rfl⟩⟩
        simp only [run_route, hfind, hmodel]
        rw [if_neg (by push_neg; exact hterm)]
        rfl
      | some meta =>
        cases hinit : runtimeInit env meta with
        | error e =>
          left
          simp only [run_route, hfind, hmodel, hinit]
          rw [if_neg (by push_neg; exact hterm)]
        | ok u =>
          cases u
          cases hval : bioAgeValidate (some meta.feature_names) task.answers with
          | error e =>
            left
            simp only [run_route, hfind, hmodel, hinit, hval]
            rw [if_neg (by push_neg; exact hterm)]
          | ok p =>
            obtain ⟨bOk, errs⟩ := p
            by_cases herrs : errs = []
            · subst herrs
              right
              refine ⟨task, { task with
                              validation_errors := [],
                              status := .VALIDATED },
                rfl, hterm.1, hterm.2, rfl, rfl, rfl, rfl, rfl, rfl,
                Or.inr ⟨?_, rfl, ?_⟩⟩
              · simp only [run_route, hfind, hmodel, hinit, hval, reduceIte,
                  replaceTask]
                rw [if_neg (by push_neg; exact hterm)]
              · intro meta2 hm2
                rw [hmodel] at hm2
                injection hm2 with hm2
                subst hm2
                have hbok : bOk = true := bioAgeValidate_empty_true hval
                subst hbok
                exact hval
            · right
              refine ⟨task, { task with
                              validation_errors := errs,
                              status := .CREATED },
                rfl, hterm.1, hterm.2, rfl, rfl, rfl, rfl, rfl, rfl,
                Or.inl ⟨?_, Or.inr ⟨rfl, meta, bOk, errs, hmodel, hval, herrs⟩⟩⟩
              simp only [run_route, hfind, hmodel, hinit, hval, if_neg herrs,
                replaceTask]
              rw [if_neg (by push_neg; exact hterm)]


/-! ## Preservation of the system invariant -/

theorem register_ok_inv {s : SysState} {email pw : String} {role : Role} {s' : SysState}
    (h : register s email pw role = .ok s') :
    s' = { s with
           users := s.users ++ [⟨s.nextUserId, strNorm email, role⟩],
           wallets := if role = .USER then s.wallets ++ [(s.nextUserId, 0)] else s.wallets,
           nextUserId := s.nextUserId + 1 } := by
  unfold register at h
  by_cases hpw : pw.length < 8
  · rw [if_pos hpw] at h; cases h
  · rw [if_neg hpw] at h
    cases hf : findUserByEmail s.users (strNorm email) with
    | some u => rw [hf] at h; cases h
    | none =>
      rw [hf] at h
      injection h with h
      exact h.symm

theorem topup_ok_inv {s : SysState} {uid : Nat} {amount : Int} {s' : SysState} {tx : Txn}
    (h : topup s uid amount = .ok (s', tx)) :
    ∃ b, lookupWallet s.wallets uid = some b ∧ 0 < amount ∧
      tx = ⟨uid, .TOPUP, amount, none⟩ ∧
      s' = { s with wallets := setWallet s.wallets uid (b + amount),
                    txs := s.txs ++ [⟨uid, .TOPUP, amount, none⟩] } := by
  cases hw : lookupWallet s.wallets uid with
  | none =>
    simp only [topup, hw] at h
    cases h
  | some b =>
    simp only [topup, hw] at h
    by_cases ha : amount ≤ 0
    · rw [if_pos ha] at h; cases h
    · rw [if_neg ha] at h
      simp only [Except.ok.injEq, Prod.mk.injEq] at h
      exact ⟨b, rfl, by omega, h.2.symm, h.1.symm⟩

theorem lookupWallet_of_some_after_set {ws : List (Nat × Int)} {uid uid' : Nat} {nb : Int}
    (hne : lookupWallet (setWallet ws uid nb) uid' ≠ none) :
    lookupWallet ws uid' ≠ none := by
  by_cases hu : uid' = uid
  · subst hu
    cases hw : lookupWallet ws uid' with
    | none =>
      exfalso
      apply hne
      rw [lookupWallet_none_iff] at hw ⊢
      rw [setWallet_map_fst]
      exact hw
    | some b => simp
  · rw [lookupWallet_setWallet_other nb hu] at hne
    exact hne

theorem lookupWallet_set_ne_none {ws : List (Nat × Int)} {uid u : Nat} {nb : Int}
    (h : lookupWallet ws u ≠ none) :
    lookupWallet (setWallet ws uid nb) u ≠ none := by
  intro hc
  apply h
  rw [lookupWallet_none_iff] at hc ⊢
  rw [setWallet_map_fst] at hc
  exact hc

/-- Ledger preservation when one wallet is mutated together with one
appended transaction whose signed amount matches the delta. -/
theorem ledger_preserved_tx {s : SysState} {uid : Nat} {b nb : Int} {tx : Txn}
    (hled : ∀ u bb, lookupWallet s.wallets u = some bb → bb = ledgerSum u s.txs)
    (hw : lookupWallet s.wallets uid = some b)
    (htx : tx.user_id = uid)
    (hdelta : nb = b + tx.signed) :
    ∀ u bb, lookupWallet (setWallet s.wallets uid nb) u = some bb →
      bb = ledgerSum u (s.txs ++ [tx]) := by
  intro u bb hlu
  rw [ledgerSum_append_single]
  by_cases hu : u = uid
  · subst hu
    rw [lookupWallet_setWallet_self hw nb] at hlu
    injection hlu with hlu
    subst hlu
    rw [if_pos htx]
    have := hled u b hw
    omega
  · rw [lookupWallet_setWallet_other nb (fun hc => hu hc)] at hlu
    rw [if_neg (by rw [htx]; exact fun hc => hu hc.symm)]
    have := hled u bb hlu
    omega

theorem inv_init (models : List MLModelMeta) : Inv { mlModels := models } := by
  constructor <;> intros <;> simp_all [lookupWallet, ledgerSum, topupSum, chargeSum]

theorem inv_register {s : SysState} {email pw : String} {role : Role} {s' : SysState}
    (hInv : Inv s) (h : register s email pw role = .ok s') : Inv s' := by
  have hs' := register_ok_inv h
  subst hs'
  obtain ⟨hlt, hidnd, hextnd, hcd, hnp, hq, hwlt, hwnd, hled, htw⟩ := hInv
  have hwfresh : ∀ w ∈ s.wallets, w.1 ≠ s.nextUserId := by
    intro w hw hc
    have := hwlt w.1 (List.mem_map_of_mem _ hw)
    omega
  constructor
  · exact hlt
  · exact hidnd
  · exact hextnd
  · exact hcd
  · exact hnp
  · intro m hm
    obtain ⟨t, ht, hrest⟩ := hq m hm
    exact ⟨t, ht, hrest⟩
  · intro u hu
    by_cases hrole : role = .USER
    · rw [if_pos hrole] at hu
      rw [List.map_append] at hu
      rcases List.mem_append.mp hu with hu | hu
      · have := hwlt u hu
        simp only []
        omega
      · simp only [List.map_cons, List.map_nil, List.mem_singleton] at hu
        subst hu
        simp
    · rw [if_neg hrole] at hu
      have := hwlt u hu
      simp only []
      omega
  · by_cases hrole : role = .USER
    · rw [if_pos hrole]
      rw [List.map_append, List.nodup_append]
      refine ⟨hwnd, List.nodup_singleton _, ?_⟩
      intro a ha hb
      simp only [List.map_cons, List.map_nil, List.mem_singleton] at hb
      subst hb
      obtain ⟨w, hw, hfst⟩ := List.mem_map.mp ha
      exact hwfresh w hw hfst
    · rw [if_neg hrole]
      exact hwnd
  · intro uid b hlu
    by_cases hrole : role = .USER
    · rw [if_pos hrole] at hlu
      rw [lookupWallet_append] at hlu
      cases hold : lookupWallet s.wallets uid with
      | some bb =>
        rw [hold] at hlu
        injection hlu with hlu
        subst hlu
        exact hled uid bb hold
      | none =>
        rw [hold] at hlu
        simp only [lookupWallet] at hlu
        by_cases hu : s.nextUserId = uid
        · rw [if_pos hu] at hlu
          injection hlu with hlu
          subst hlu
          subst hu
          symm
          apply ledgerSum_zero_of_no_tx
          intro tx htx hc
          apply htw tx htx
          rw [hc]
          rw [lookupWallet_none_iff] at hold ⊢
          exact hold
        · rw [if_neg hu] at hlu
          cases hlu
    · rw [if_neg hrole] at hlu
      exact hled uid b hlu
  · intro tx htx
    by_cases hrole : role = .USER
    · rw [if_pos hrole]
      rw [lookupWallet_append]
      cases hold : lookupWallet s.wallets tx.user_id with
      | some bb => simp
      | none => exact absurd hold (htw tx htx)
    · rw [if_neg hrole]
      exact htw tx htx

theorem inv_topup {s : SysState} {uid : Nat} {amount : Int} {s' : SysState} {tx : Txn}
    (hInv : Inv s) (h : topup s uid amount = .ok (s', tx)) : Inv s' := by
  obtain ⟨b, hw, hpos, htx, hs'⟩ := topup_ok_inv h
  subst hs'
  obtain ⟨hlt, hidnd, hextnd, hcd, hnp, hq, hwlt, hwnd, hled, htw⟩ := hInv
  constructor
  · exact hlt
  · exact hidnd
  · exact hextnd
  · exact hcd
  · exact hnp
  · intro m hm
    exact hq m hm
  · intro u hu
    rw [setWallet_map_fst] at hu
    exact hwlt u hu
  · rw [setWallet_map_fst]
    exact hwnd
  · exact ledger_preserved_tx hled hw rfl (by simp [Txn.signed])
  · intro tx2 htx2
    rcases List.mem_append.mp htx2 with h2 | h2
    · exact lookupWallet_set_ne_none (htw tx2 h2)
    · simp only [List.mem_singleton] at h2
      subst h2
      simp only []
      rw [lookupWallet_setWallet_self hw]
      simp


theorem inv_createDraft {s : SysState} (hInv : Inv s) (uid mid : Nat) (answers : Answers)
    {ext : String} (hfresh : extFresh s ext) :
    Inv (create_task_row s uid mid answers ext).1 := by
  obtain ⟨hlt, hidnd, hextnd, hcd, hnp, hq, hwlt, hwnd, hled, htw⟩ := hInv
  simp only [create_task_row]
  constructor
  · intro i hi
    rw [List.map_append] at hi
    rcases List.mem_append.mp hi with hi | hi
    · have := hlt i hi
      simp only []
      omega
    · simp only [List.map_cons, List.map_nil, List.mem_singleton] at hi
      subst hi
      simp
  · rw [List.map_append, List.nodup_append]
    refine ⟨hidnd, List.nodup_singleton _, ?_⟩
    intro a ha hb
    simp only [List.map_cons, List.map_nil, List.mem_singleton] at hb
    have := hlt a ha
    omega
  · rw [List.map_append, List.nodup_append]
    refine ⟨hextnd, List.nodup_singleton _, ?_⟩
    intro a ha hb
    simp only [List.map_cons, List.map_nil, List.mem_singleton] at hb
    obtain ⟨t, ht, htex⟩ := List.mem_map.mp ha
    exact hfresh t ht (htex.trans hb)
  · intro t ht
    rcases List.mem_append.mp ht with ht | ht
    · exact hcd t ht
    · simp only [List.mem_singleton] at ht
      subst ht
      simp
  · intro t ht
    rcases List.mem_append.mp ht with ht | ht
    · exact hnp t ht
    · simp only [List.mem_singleton] at ht
      subst ht
      simp
  · intro m hm
    obtain ⟨t, ht, h1, h2, h3⟩ := hq m hm
    exact ⟨t, List.mem_append_left _ ht, h1, h2, h3⟩
  · exact hwlt
  · exact hwnd
  · exact hled
  · exact htw

theorem inv_addAnswer {s : SysState} (hInv : Inv s) {tid : Nat} {f : String} {v : PyVal}
    {t t' : Task} (hfind : findTaskId s.tasks tid = some t)
    (hok : t.add_answer f v = .ok t') : Inv (replaceTask s t') := by
  unfold Task.add_answer at hok
  by_cases hst : t.status = .CREATED
  case neg =>
    rw [if_neg hst] at hok
    cases hok
  rw [if_pos hst] at hok
  injection hok with hok
  obtain ⟨hlt, hidnd, hextnd, hcd, hnp, hq, hwlt, hwnd, hled, htw⟩ := hInv
  obtain ⟨htmem, htid⟩ := findTaskId_mem hfind
  have hid' : t'.id = t.id := by rw [← hok]
  have hext' : t'.external_id = t.external_id := by rw [← hok]
  have hans : t'.status = .CREATED := by rw [← hok]; exact hst
  have hch' : t'.charged_amount = t.charged_amount := by rw [← hok]
  have hchn : t.charged_amount = none := by
    by_contra hc
    have := (hcd t htmem).mp hc
    rw [hst] at this
    cases this
  constructor
  · intro i hi
    rw [replaceTask, replaceTasksL_map_id] at hi
    exact hlt i hi
  · rw [replaceTask]
    simp only []
    rw [replaceTasksL_map_id]
    exact hidnd
  · rw [replaceTask]
    simp only []
    rw [replaceTasksL_map_ext]
    · exact hextnd
    · intro x hx hxid
      have hxt : x = t := task_id_inj hidnd hx htmem (by rw [hxid, hid'])
      rw [hxt, hext']
  · intro u hu
    rcases mem_replaceTasksL hu with hu | hu
    · subst hu
      rw [hch', hchn, hans]
      simp
    · exact hcd u hu
  · intro u hu
    rcases mem_replaceTasksL hu with hu | hu
    · subst hu
      rw [hans]
      intro hc
      cases hc
    · exact hnp u hu
  · intro m hm
    obtain ⟨u, hu, h1, h2, h3⟩ := hq m hm
    by_cases hux : u.id = t'.id
    · exfalso
      have : u = t := task_id_inj hidnd hu htmem (by rw [hux, hid'])
      rw [this] at h2
      exact h2 hst
    · exact ⟨u, mem_replaceTasksL_of_ne hu hux, h1, h2, h3⟩
  · exact hwlt
  · exact hwnd
  · exact hled
  · exact htw

theorem inv_ackRemove {s : SysState} (hInv : Inv s) (m : Msg) :
    Inv { s with queue := s.queue.erase m } := by
  obtain ⟨hlt, hidnd, hextnd, hcd, hnp, hq, hwlt, hwnd, hled, htw⟩ := hInv
  constructor
  · exact hlt
  · exact hidnd
  · exact hextnd
  · exact hcd
  · exact hnp
  · intro m2 hm2
    exact hq m2 (List.mem_of_mem_erase hm2)
  · exact hwlt
  · exact hwnd
  · exact hled
  · exact htw


theorem inv_after_append {s : SysState} (hInv : Inv s) {t' : Task} {q' : List Msg}
    (hid : t'.id = s.nextTaskId)
    (hfresh : extFresh s t'.external_id)
    (hchd : t'.charged_amount ≠ none ↔ t'.status = .DONE)
    (hnp' : t'.status ≠ .PROCESSING)
    (hq' : ∀ m ∈ q', m ∈ s.queue ∨
       (t'.external_id = m.task_id ∧ t'.status ≠ .CREATED ∧
        (t'.status = .VALIDATED →
          ∀ meta, findModel s.mlModels t'.model_id = some meta →
            bioAgeValidate (some meta.feature_names) t'.answers = .ok (true, [])))) :
    Inv { s with tasks := s.tasks ++ [t'], nextTaskId := s.nextTaskId + 1,
                 queue := q' } := by
  obtain ⟨hlt, hidnd, hextnd, hcd, hnp, hq, hwlt, hwnd, hled, htw⟩ := hInv
  constructor
  · intro i hi
    rw [List.map_append] at hi
    rcases List.mem_append.mp hi with hi | hi
    · have := hlt i hi
      simp only []
      omega
    · simp only [List.map_cons, List.map_nil, List.mem_singleton] at hi
      simp only []
      omega
  · rw [List.map_append, List.nodup_append]
    refine ⟨hidnd, List.nodup_singleton _, ?_⟩
    intro a ha hb
    simp only [List.map_cons, List.map_nil, List.mem_singleton] at hb
    have := hlt a ha
    omega
  · rw [List.map_append, List.nodup_append]
    refine ⟨hextnd, List.nodup_singleton _, ?_⟩
    intro a ha hb
    simp only [List.map_cons, List.map_nil, List.mem_singleton] at hb
    obtain ⟨u, hu, huex⟩ := List.mem_map.mp ha
    exact hfresh u hu (huex.trans hb)
  · intro u hu
    rcases List.mem_append.mp hu with hu | hu
    · exact hcd u hu
    · simp only [List.mem_singleton] at hu
      subst hu
      exact hchd
  · intro u hu
    rcases List.mem_append.mp hu with hu | hu
    · exact hnp u hu
    · simp only [List.mem_singleton] at hu
      subst hu
      exact hnp'
  · intro m hm
    rcases hq' m hm with hold | ⟨h1, h2, h3⟩
    · obtain ⟨u, hu, hh1, hh2, hh3⟩ := hq m hold
      exact ⟨u, List.mem_append_left _ hu, hh1, hh2, hh3⟩
    · exact ⟨t', List.mem_append_right _ (List.mem_singleton_self _), h1, h2, h3⟩
  · exact hwlt
  · exact hwnd
  · exact hled
  · exact htw

theorem inv_predictRoute {s : SysState} (hInv : Inv s) (env : MLEnv) (uid mid : Nat)
    (answers : Answers) {ext : String} (hfresh : extFresh s ext) :
    Inv (predict_route env s uid mid answers ext) := by
  have hids : ∀ y ∈ s.tasks, y.id ≠ s.nextTaskId := by
    intro y hy hc
    have := hInv.tasksIdLt y.id (List.mem_map_of_mem _ hy)
    omega
  obtain ⟨t', hid, hextq, huid, hmid, hans, hchg, hcase⟩ :=
    predict_route_spec env s uid mid answers ext hids
  rcases hcase with ⟨heq, hstat⟩ | ⟨heq, hstat, hvalok⟩
  · rw [heq]
    exact inv_after_append hInv hid (hextq ▸ hfresh)
      (by rw [hchg]; rcases hstat with h | h <;> rw [h] <;> simp)
      (by rcases hstat with h | h <;> rw [h] <;> intro hc <;> cases hc)
      (fun m hm => Or.inl hm)
  · rw [heq]
    refine inv_after_append hInv hid (hextq ▸ hfresh)
      (by rw [hchg, hstat]; simp)
      (by rw [hstat]; intro hc; cases hc)
      ?_
    intro m hm
    rcases List.mem_append.mp hm with hm | hm
    · exact Or.inl hm
    · simp only [List.mem_singleton] at hm
      subst hm
      refine Or.inr ⟨hextq, (by rw [hstat]; intro hc; cases hc), fun _ meta hmf => ?_⟩
      rw [hmid] at hmf
      rw [hans]
      exact hvalok meta hmf

theorem inv_runRoute {s : SysState} (hInv : Inv s) (env : MLEnv) (ext : String) :
    Inv (run_route env s ext) := by
  rcases run_route_spec env s ext with heq | ⟨task, t', hfind, hnd, hnf, hid, hext,
    huid, hmid, hans, hchg, hcase⟩
  · rw [heq]
    exact hInv
  · obtain ⟨hlt, hidnd, hextnd, hcd, hnp, hq, hwlt, hwnd, hled, htw⟩ := hInv
    obtain ⟨htmem, htex⟩ := findTaskExt_mem hfind
    have hchn : task.charged_amount = none := by
      by_contra hc
      exact hnd ((hcd task htmem).mp hc)
    have hmapid : ∀ x ∈ s.tasks, x.id = t'.id → x = task := by
      intro x hx hxid
      exact task_id_inj hidnd hx htmem (by rw [hxid, hid])
    have hmapext : (replaceTasksL s.tasks t').map Task.external_id =
        s.tasks.map Task.external_id := by
      apply replaceTasksL_map_ext
      intro x hx hxid
      rw [hmapid x hx hxid, hext]
    rcases hcase with ⟨heq, hstat⟩ | ⟨heq, hstat, hvalok⟩
    · rw [heq]
      constructor
      · intro i hi
        rw [replaceTasksL_map_id] at hi
        exact hlt i hi
      · rw [replaceTasksL_map_id]
        exact hidnd
      · rw [hmapext]
        exact hextnd
      · intro u hu
        rcases mem_replaceTasksL hu with hu | hu
        · subst hu
          rw [hchg, hchn]
          rcases hstat with h | ⟨h, _⟩ <;> rw [h] <;> simp
        · exact hcd u hu
      · intro u hu
        rcases mem_replaceTasksL hu with hu | hu
        · subst hu
          rcases hstat with h | ⟨h, _⟩ <;> rw [h] <;> intro hc <;> cases hc
        · exact hnp u hu
      · intro m hm
        obtain ⟨u, hu, h1, h2, h3⟩ := hq m hm
        by_cases hux : u.id = t'.id
        · have hut : u = task := hmapid u hu hux
          subst hut
          rcases hstat with h | ⟨h, meta, bOk, errs, hmf, hvv, herrs⟩
          · -- the task became FAILED: terminal witness conditions hold for t'
            refine ⟨t', mem_replaceTasksL_self htmem hid.symm, hext.trans h1, ?_, ?_⟩
            · rw [h]; intro hc; cases hc
            · rw [h]; intro hc; cases hc
          · -- demotion to CREATED is impossible for a task with a pending message
            exfalso
            have hust : u.status = .VALIDATED := by
              rcases hsu : u.status with h5 | h5 | h5 | h5 | h5
              · exact absurd hsu h2
              · rfl
              · exact absurd hsu (hnp u hu)
              · exact absurd hsu hnd
              · exact absurd hsu hnf
            have h7 := h3 hust meta hmf
            rw [hvv] at h7
            injection h7 with h7
            rw [Prod.mk.injEq] at h7
            exact herrs h7.2
        · exact ⟨u, mem_replaceTasksL_of_ne hu hux, h1, h2, h3⟩
      · exact hwlt
      · exact hwnd
      · exact hled
      · exact htw
    · rw [heq]
      constructor
      · intro i hi
        rw [replaceTasksL_map_id] at hi
        exact hlt i hi
      · rw [replaceTasksL_map_id]
        exact hidnd
      · rw [hmapext]
        exact hextnd
      · intro u hu
        rcases mem_replaceTasksL hu with hu | hu
        · subst hu
          rw [hchg, hchn, hstat]
          simp
        · exact hcd u hu
      · intro u hu
        rcases mem_replaceTasksL hu with hu | hu
        · subst hu
          rw [hstat]
          intro hc
          cases hc
        · exact hnp u hu
      · intro m hm
        rcases List.mem_append.mp hm with hm | hm
        · obtain ⟨u, hu, h1, h2, h3⟩ := hq m hm
          by_cases hux : u.id = t'.id
          · have hut : u = task := hmapid u hu hux
            subst hut
            refine ⟨t', mem_replaceTasksL_self htmem hid.symm, hext.trans h1,
              (by rw [hstat]; intro hc; cases hc), fun _ meta hmf => ?_⟩
            rw [hmid] at hmf
            rw [hans]
            exact hvalok meta hmf
          · exact ⟨u, mem_replaceTasksL_of_ne hu hux, h1, h2, h3⟩
        · simp only [List.mem_singleton] at hm
          subst hm
          refine ⟨t', mem_replaceTasksL_self htmem hid.symm, hext.trans htex,
            (by rw [hstat]; intro hc; cases hc), fun _ meta hmf => ?_⟩
          rw [hmid] at hmf
          rw [hans]
          exact hvalok meta hmf
      · exact hwlt
      · exact hwnd
      · exact hled
      · exact htw


theorem inv_replace_general {s : SysState} (hInv : Inv s) {task t' : Task}
    {W : List (Nat × Int)} {X : List Txn}
    (hmem : task ∈ s.tasks) (hid : t'.id = task.id)
    (hext : t'.external_id = task.external_id)
    (hterm' : (t'.status = .FAILED ∨ t'.status = .DONE) ∨
      (t'.status = .CREATED ∧ task.status = .CREATED))
    (hchd : t'.charged_amount ≠ none ↔ t'.status = .DONE)
    (hwmap : W.map Prod.fst = s.wallets.map Prod.fst)
    (hled' : ∀ uid b, lookupWallet W uid = some b → b = ledgerSum uid X)
    (htw' : ∀ tx ∈ X, lookupWallet W tx.user_id ≠ none) :
    Inv { s with tasks := replaceTasksL s.tasks t', wallets := W, txs := X } := by
  obtain ⟨hlt, hidnd, hextnd, hcd, hnp, hq, hwlt, hwnd, hled, htw⟩ := hInv
  have hmapid : ∀ x ∈ s.tasks, x.id = t'.id → x = task := by
    intro x hx hxid
    exact task_id_inj hidnd hx hmem (by rw [hxid, hid])
  constructor
  · intro i hi
    rw [replaceTasksL_map_id] at hi
    exact hlt i hi
  · rw [replaceTasksL_map_id]
    exact hidnd
  · rw [replaceTasksL_map_ext]
    · exact hextnd
    · intro x hx hxid
      rw [hmapid x hx hxid, hext]
  · intro u hu
    rcases mem_replaceTasksL hu with hu | hu
    · subst hu
      exact hchd
    · exact hcd u hu
  · intro u hu
    rcases mem_replaceTasksL hu with hu | hu
    · subst hu
      rcases hterm' with (h | h) | ⟨h, _⟩ <;> rw [h] <;> intro hc <;> cases hc
    · exact hnp u hu
  · intro m hm
    obtain ⟨u, hu, h1, h2, h3⟩ := hq m hm
    by_cases hux : u.id = t'.id
    · have hut : u = task := hmapid u hu hux
      subst hut
      rcases hterm' with hterm' | ⟨_, htc⟩
      · refine ⟨t', mem_replaceTasksL_self hmem hid.symm, hext.trans h1, ?_, ?_⟩
        · rcases hterm' with h | h <;> rw [h] <;> intro hc <;> cases hc
        · rcases hterm' with h | h <;> rw [h] <;> intro hc <;> cases hc
      · exact absurd htc h2
    · exact ⟨u, mem_replaceTasksL_of_ne hu hux, h1, h2, h3⟩
  · intro u hu
    rw [hwmap] at hu
    exact hwlt u hu
  · rw [hwmap]
    exact hwnd
  · exact hled'
  · exact htw'

theorem inv_processTask {s : SysState} (hInv : Inv s) (env : MLEnv) (task : Task) :
    Inv (processTask env s task).1 := by
  rw [processTask_state]
  exact hInv

theorem inv_worker {s : SysState} (hInv : Inv s) (env : MLEnv) (wid : String)
    {m : Msg} (hm : m ∈ s.queue) : Inv (on_message env wid s m).1 := by
  obtain ⟨u, hu, h1, h2, h3⟩ := hInv.queueOk m hm
  have hfind : findTaskExt s.tasks m.task_id = some u := by
    have := findTaskExt_of_mem hInv.tasksExtNodup hu
    rw [h1] at this
    exact this
  rcases hsu : u.status with h5 | h5 | h5 | h5 | h5
  · exact absurd hsu h2
  · -- VALIDATED: the master case analysis
    have hch : u.charged_amount = none := by
      by_contra hc
      have := (hInv.chargeWhenDone u hu).mp hc
      rw [hsu] at this
      cases this
    obtain ⟨t', hid, hext, huid, hmid, hans, hcase⟩ :=
      on_message_validated_spec env wid s m hInv.tasksIdNodup hInv.tasksExtNodup
        hfind hsu hch
    rcases hcase with ⟨hstat, hchg, heq⟩ | ⟨meta, b, hmf, hstat, hchg, hpos, hw,
      hble, heq⟩
    · rw [heq]
      exact inv_replace_general hInv hu hid hext (Or.inl (Or.inl hstat))
        (by rw [hchg, hstat]; simp) rfl hInv.ledger hInv.txHasWallet
    · rw [heq]
      refine inv_replace_general hInv hu hid hext (Or.inl (Or.inr hstat))
        (by rw [hchg, hstat]; simp)
        (setWallet_map_fst _ _ _)
        (ledger_preserved_tx hInv.ledger hw rfl (by simp [Txn.signed]; ring))
        ?_
      intro tx htx
      rcases List.mem_append.mp htx with h6 | h6
      · exact lookupWallet_set_ne_none (hInv.txHasWallet tx h6)
      · simp only [List.mem_singleton] at h6
        subst h6
        simp only []
        rw [lookupWallet_setWallet_self hw]
        simp
  · exact absurd hsu (hInv.noProcessing u hu)
  · rw [on_message_terminal env wid s m hfind (Or.inl hsu)]
    exact hInv
  · rw [on_message_terminal env wid s m hfind (Or.inr hsu)]
    exact hInv

theorem inv_step {s s' : SysState} (hInv : Inv s) (hstep : Step s s') : Inv s' := by
  cases hstep with
  | stepRegister s' email pw role h => exact inv_register hInv h
  | stepTopup s' uid amount tx h => exact inv_topup hInv h
  | stepCreateDraft uid mid answers ext hfresh =>
    exact inv_createDraft hInv uid mid answers hfresh
  | stepAddAnswer tid f v t t' hfind hok => exact inv_addAnswer hInv hfind hok
  | stepPredictRoute env uid mid answers ext hfresh =>
    exact inv_predictRoute hInv env uid mid answers hfresh
  | stepRunRoute env ext => exact inv_runRoute hInv env ext
  | stepSyncRunById env tid =>
    cases hfind : findTaskId s.tasks tid with
    | none =>
      simp only [run_task_by_id, hfind]
      exact hInv
    | some task =>
      by_cases hterm : task.status = .DONE ∨ task.status = .FAILED
      · simp only [run_task_by_id, hfind, if_pos hterm]
        exact hInv
      · simp only [run_task_by_id, hfind, if_neg hterm]
        exact inv_processTask hInv env task
  | stepSyncRunFresh env uid mid answers ext hfresh =>
    unfold run_task_fresh
    have h1 : Inv (create_task_row s uid mid answers ext).1 :=
      inv_createDraft hInv uid mid answers hfresh
    exact inv_processTask h1 env _
  | stepWorker env wid m hm => exact inv_worker hInv env wid hm
  | stepAckRemove m hm => exact inv_ackRemove hInv m

/-- Every reachable state of the deployed system satisfies the invariant. -/
theorem reachable_inv {s : SysState} (h : Reachable s) : Inv s := by
  induction h with
  | init models => exact inv_init models
  | step hr hstep ih => exact inv_step ih hstep


/-! ## Paired balance mutations -/

/-- Balance of a user, defaulting to 0 when no wallet exists. -/
def balVal (s : SysState) (uid : Nat) : Int :=
  (lookupWallet s.wallets uid).getD 0

/-- One step appends its transactions to the ledger (the ledger is
append-only), every user's balance moves by exactly the signed sum of
the new transactions of that user, and no single step records more than
one transaction per user. -/
def PairedStep (s s' : SysState) : Prop :=
  ∃ new, s'.txs = s.txs ++ new ∧
    ∀ uid, balVal s' uid = balVal s uid + ledgerSum uid new ∧
      (new.filter (fun tx => tx.user_id == uid)).length ≤ 1

theorem ledgerSum_nil (uid : Nat) : ledgerSum uid [] = 0 := by
  simp [ledgerSum, topupSum, chargeSum]

theorem pairedStep_of_unchanged {s s' : SysState}
    (hw : s'.wallets = s.wallets) (ht : s'.txs = s.txs) : PairedStep s s' := by
  refine ⟨[], by simp [ht], fun uid => ⟨?_, by simp⟩⟩
  rw [ledgerSum_nil, balVal, balVal, hw]
  omega

theorem pairedStep_of_tx {s s' : SysState} {uid : Nat} {b nb : Int} {tx : Txn}
    (hwl : lookupWallet s.wallets uid = some b)
    (hw : s'.wallets = setWallet s.wallets uid nb)
    (hnb : nb = b + tx.signed)
    (ht : s'.txs = s.txs ++ [tx])
    (hu : tx.user_id = uid) : PairedStep s s' := by
  refine ⟨[tx], ht, fun u => ⟨?_, ?_⟩⟩
  · unfold balVal
    rw [hw]
    by_cases huu : u = uid
    · subst huu
      rw [lookupWallet_setWallet_self hwl, hwl]
      simp only [Option.getD_some]
      have hls : ledgerSum u [tx] = tx.signed := by
        unfold ledgerSum
        cases htt : tx.tx_type <;>
          simp [Txn.signed, hu, htt, topupSum, chargeSum]
      omega
    · rw [lookupWallet_setWallet_other _ (fun hc => huu hc)]
      have hls : ledgerSum u [tx] = 0 := by
        unfold ledgerSum
        have hne : ¬ tx.user_id = u := by rw [hu]; exact fun hc => huu hc.symm
        simp [hne, topupSum, chargeSum]
      omega
  · by_cases huu : u = uid
    · subst huu
      simp [hu]
    · have hne : (tx.user_id == u) = false := by
        simp only [beq_eq_false_iff_ne, ne_eq]
        rw [hu]
        exact fun hc => huu hc.symm
      simp [List.filter, hne]

theorem paired_register {s s' : SysState} {email pw : String} {role : Role}
    (h : register s email pw role = .ok s') : PairedStep s s' := by
  have hs' := register_ok_inv h
  subst hs'
  refine ⟨[], by simp, fun uid => ⟨?_, by simp⟩⟩
  rw [ledgerSum_nil]
  unfold balVal
  simp only []
  by_cases hrole : role = .USER
  · rw [if_pos hrole, lookupWallet_append]
    cases hold : lookupWallet s.wallets uid with
    | some b => simp
    | none =>
      simp only [lookupWallet]
      by_cases hu : s.nextUserId = uid
      · rw [if_pos hu]
        simp
      · rw [if_neg hu]
        simp
  · rw [if_neg hrole]
    omega

theorem paired_processTask (env : MLEnv) (s : SysState) (task : Task) :
    PairedStep s (processTask env s task).1 :=
  pairedStep_of_unchanged (by rw [processTask_state]) (by rw [processTask_state])

theorem paired_worker {s : SysState} (hInv : Inv s) (env : MLEnv) (wid : String)
    {m : Msg} (hm : m ∈ s.queue) : PairedStep s (on_message env wid s m).1 := by
  obtain ⟨u, hu, h1, h2, h3⟩ := hInv.queueOk m hm
  have hfind : findTaskExt s.tasks m.task_id = some u := by
    have := findTaskExt_of_mem hInv.tasksExtNodup hu
    rw [h1] at this
    exact this
  rcases hsu : u.status with h5 | h5 | h5 | h5 | h5
  · exact absurd hsu h2
  · have hch : u.charged_amount = none := by
      by_contra hc
      have := (hInv.chargeWhenDone u hu).mp hc
      rw [hsu] at this
      cases this
    obtain ⟨t', _, _, _, _, _, hcase⟩ :=
      on_message_validated_spec env wid s m hInv.tasksIdNodup hInv.tasksExtNodup
        hfind hsu hch
    rcases hcase with ⟨_, _, heq⟩ | ⟨meta, b, _, _, _, _, hw, _, heq⟩
    · rw [heq]
      exact pairedStep_of_unchanged rfl rfl
    · rw [heq]
      exact pairedStep_of_tx hw rfl (by simp [Txn.signed]; ring) rfl rfl
  · exact absurd hsu (hInv.noProcessing u hu)
  · rw [on_message_terminal env wid s m hfind (Or.inl hsu)]
    exact pairedStep_of_unchanged rfl rfl
  · rw [on_message_terminal env wid s m hfind (Or.inr hsu)]
    exact pairedStep_of_unchanged rfl rfl

theorem paired_step {s s' : SysState} (hInv : Inv s) (hstep : Step s s') :
    PairedStep s s' := by
  cases hstep with
  | stepRegister s' email pw role h => exact paired_register h
  | stepTopup s' uid amount tx h =>
    obtain ⟨b, hw, hpos, htx, hs'⟩ := topup_ok_inv h
    subst hs'
    exact pairedStep_of_tx hw rfl (by simp [Txn.signed]) rfl rfl
  | stepCreateDraft uid mid answers ext hfresh =>
    exact pairedStep_of_unchanged rfl rfl
  | stepAddAnswer tid f v t t' hfind hok => exact pairedStep_of_unchanged rfl rfl
  | stepPredictRoute env uid mid answers ext hfresh =>
    have hids : ∀ y ∈ s.tasks, y.id ≠ s.nextTaskId := by
      intro y hy hc
      have := hInv.tasksIdLt y.id (List.mem_map_of_mem _ hy)
      omega
    obtain ⟨t', _, _, _, _, _, _, hcase⟩ :=
      predict_route_spec env s uid mid answers ext hids
    rcases hcase with ⟨heq, _⟩ | ⟨heq, _, _⟩ <;>
      exact pairedStep_of_unchanged (by rw [heq]) (by rw [heq])
  | stepRunRoute env ext =>
    rcases run_route_spec env s ext with heq | ⟨task, t', _, _, _, _, _, _, _, _, _,
      hcase⟩
    · exact pairedStep_of_unchanged (by rw [heq]) (by rw [heq])
    · rcases hcase with ⟨heq, _⟩ | ⟨heq, _, _⟩ <;>
        exact pairedStep_of_unchanged (by rw [heq]) (by rw [heq])
  | stepSyncRunById env tid =>
    cases hfind : findTaskId s.tasks tid with
    | none =>
      refine pairedStep_of_unchanged ?_ ?_ <;> simp only [run_task_by_id, hfind]
    | some task =>
      by_cases hterm : task.status = .DONE ∨ task.status = .FAILED
      · refine pairedStep_of_unchanged ?_ ?_ <;>
          simp only [run_task_by_id, hfind, if_pos hterm]
      · have heval : (run_task_by_id env s tid).1 = (processTask env s task).1 := by
          simp only [run_task_by_id, hfind, if_neg hterm]
        rw [heval]
        exact paired_processTask env s task
  | stepSyncRunFresh env uid mid answers ext hfresh =>
    obtain ⟨new, hnew, hbal⟩ :=
      paired_processTask env (create_task_row s uid mid answers ext).1
        (create_task_row s uid mid answers ext).2
    exact ⟨new, hnew, hbal⟩
  | stepWorker env wid m hm => exact paired_worker hInv env wid hm
  | stepAckRemove m hm => exact pairedStep_of_unchanged rfl rfl


/-! ## Claim theorems -/

/-- A stub runtime environment for concrete executions: the artifact is
present and the predictor returns biological age 42. -/
def envStub : MLEnv :=
  { initExc := none, predictFn := fun _ => .ok { biological_age := 42 } }

/-- The seeded model row used in concrete executions. -/
def mdlW : MLModelMeta :=
  { id := 1, name := "BioAge v2 (Ridge)", price_per_task := 25,
    feature_names := ["age"] }

/-- The task used in the terminal-redelivery witness. -/
def taskDoneW : Task :=
  { id := 0, user_id := 0, model_id := 1, external_id := "t-done",
    answers := [("age", .pyInt 40)], charged_amount := some 25,
    status := .DONE }

/-- The state used in the terminal-redelivery witness. -/
def sDoneW : SysState :=
  { nextUserId := 1, nextTaskId := 1, users := [⟨0, "u@a", .USER⟩],
    wallets := [(0, 25)],
    txs := [⟨0, .TOPUP, 50, none⟩, ⟨0, .CHARGE, 25, some 0⟩],
    tasks := [taskDoneW],
    queue := [⟨"t-done"⟩], mlModels := [mdlW] }

/-- C3: a message delivered for a task already in `DONE` or `FAILED` is
acknowledged with no side effects at all — the entire store (task fields,
wallet balances, transactions) is returned unchanged, so redelivering the
message of a completed task changes nothing. -/
theorem terminal_redelivery_noop (env : MLEnv) (wid : String)
    (s : SysState) (m : Msg) {t : Task}
    (hfind : findTaskExt s.tasks m.task_id = some t)
    (hterm : t.status = .DONE ∨ t.status = .FAILED) :
    on_message env wid s m = (s, .ack) :=
  on_message_terminal env wid s m hfind hterm

/-- Closed witness for `terminal_redelivery_noop`: a concrete completed
task whose message is redelivered. -/
theorem terminal_redelivery_noop_witness :
    on_message envStub "w1" sDoneW ⟨"t-done"⟩ = (sDoneW, .ack) :=
  @terminal_redelivery_noop envStub "w1" sDoneW ⟨"t-done"⟩ taskDoneW
    (by decide) (by decide)

/-- C5 (amended): a message whose `task_id` matches no stored task is
dropped with no side effects and never retried, but through a negative
acknowledgment without requeue — not a positive ack: the task lookup
raises, and the generic exception handler of the worker nacks. -/
theorem missing_task_message_dropped (env : MLEnv) (wid : String)
    (s : SysState) (m : Msg)
    (hfind : findTaskExt s.tasks m.task_id = none) :
    on_message env wid s m = (s, .nack) := by
  simp only [on_message, hfind, failCurrentTask]

/-- Closed witness for `missing_task_message_dropped`. -/
theorem missing_task_message_dropped_witness :
    on_message envStub "w1" { mlModels := [mdlW] } ⟨"ghost"⟩ =
      ({ mlModels := [mdlW] }, .nack) :=
  missing_task_message_dropped envStub "w1" _ _ (by decide)

/-- Counterexample to C5 as stated: on a concrete store holding no task
for the message, the worker emits `nack` (without requeue), which is not
the positive acknowledgment the claim asserts. -/
theorem missing_task_message_not_acked :
    (on_message envStub "w1" { mlModels := [mdlW] } ⟨"ghost"⟩).2 = Ack.nack
    ∧ Ack.nack ≠ Ack.ack
    ∧ findTaskExt (SysState.tasks { mlModels := [mdlW] }) "ghost" = none := by
  refine ⟨by decide, by decide, by decide⟩

/-- C7: in the worker, a found, non-terminal task whose answers pass
validation but whose owner cannot cover the model price is failed with
the insufficient-funds message and acked; the wallets and the transaction
log of the resulting state are those of the input state, so no debit
happens and zero transactions referencing the task are created. -/
theorem worker_insufficient_funds (env : MLEnv) (wid : String)
    (s : SysState) (m : Msg) {t : Task} {meta : MLModelMeta} {b : Int} {bOk : Bool}
    (hfind : findTaskExt s.tasks m.task_id = some t)
    (hterm : ¬ (t.status = .DONE ∨ t.status = .FAILED))
    (hmf : findModel s.mlModels t.model_id = some meta)
    (hinit : runtimeInit env meta = .ok ())
    (hval : bioAgeValidate (some meta.feature_names) t.answers = .ok (bOk, []))
    (hw : lookupWallet s.wallets t.user_id = some b)
    (hpr : 0 ≤ meta.price_per_task)
    (hlt : b < meta.price_per_task) :
    on_message env wid s m =
      ({ s with tasks := replaceTasksL s.tasks
                  { t with worker_id := some wid,
                           error_message := some "Недостаточно средств",
                           status := .FAILED } }, .ack) := by
  have hcp : billing_can_pay s t.user_id meta.price_per_task = .ok false := by
    simp only [billing_can_pay, hw, if_neg (by omega : ¬ meta.price_per_task < 0)]
    rw [decide_eq_false (by omega)]
  simp only [on_message, hfind, if_neg hterm, hmf, hinit, hval, hcp]
  simp only [reduceCtorEq, or_self, if_false, if_true, reduceIte, Bool.false_eq_true]
  rfl

/-- The task used in the insufficient-funds witness. -/
def taskPoorW : Task :=
  { id := 0, user_id := 0, model_id := 1, external_id := "t-poor",
    answers := [("age", .pyInt 40)], status := .VALIDATED }

/-- The state used in the insufficient-funds witness: balance 10, price 25. -/
def sPoorW : SysState :=
  { nextUserId := 1, nextTaskId := 1, users := [⟨0, "u@a", .USER⟩],
    wallets := [(0, 10)], txs := [⟨0, .TOPUP, 10, none⟩],
    tasks := [taskPoorW], queue := [⟨"t-poor"⟩], mlModels := [mdlW] }

/-- Closed witness for `worker_insufficient_funds`. -/
theorem worker_insufficient_funds_witness :
    on_message envStub "w1" sPoorW ⟨"t-poor"⟩ =
      ({ sPoorW with tasks := replaceTasksL sPoorW.tasks
                       { taskPoorW with worker_id := some "w1",
                                        error_message := some "Недостаточно средств",
                                        status := .FAILED } }, .ack) :=
  @worker_insufficient_funds envStub "w1" sPoorW ⟨"t-poor"⟩ taskPoorW mdlW 10 true
    (by decide) (by decide) (by decide) rfl rfl (by decide)
    (by decide) (by decide)


theorem bioAgeValidate_nonempty_false {rf : Option (List String)} {data : Answers}
    {b : Bool} {errs : List ValidationErr}
    (h : bioAgeValidate rf data = .ok (b, errs)) (hne : errs ≠ []) : b = false := by
  unfold bioAgeValidate at h
  cases hage : domainCheckAge data with
  | error e => rw [hage] at h; cases h
  | ok ageErrs =>
    rw [hage] at h
    simp only [Except.ok.injEq, Prod.mk.injEq] at h
    obtain ⟨hok, herrs⟩ := h
    rw [herrs] at hok
    rw [← hok]
    simpa using hne

/-- An invalid draft: the required feature `age` is missing. -/
def taskBrokeW : Task :=
  { id := 0, user_id := 0, model_id := 1, external_id := "t-broke", answers := [] }

/-- Counterexample state: the invalid draft with a fully funded owner
(balance 100, price 25). -/
def sRichW : SysState :=
  { nextUserId := 1, nextTaskId := 1, users := [⟨0, "u@a", .USER⟩],
    wallets := [(0, 100)], tasks := [taskBrokeW], mlModels := [mdlW] }

/-- Counterexample to C6 as stated: on the synchronous run path, a
submission whose answers fail validation does not end with the
validation errors stored, whatever the balance: after the model loads,
`_process` dereferences `model.price_per_task` on `RuntimeMLModel` —
which has no such attribute — so the request raises `AttributeError`
before validation ever runs, and the task keeps its empty
`validation_errors` list. -/
theorem validation_failure_sync_counterexample :
    bioAgeValidate (some mdlW.feature_names) taskBrokeW.answers =
      .ok (false, [⟨"age", "Поле обязательно"⟩])
    ∧ run_task_by_id envStub sRichW 0 =
        (sRichW,
         .error "AttributeError: 'RuntimeMLModel' object has no attribute 'price_per_task'")
    ∧ findTaskId sRichW.tasks 0 = some taskBrokeW
    ∧ taskBrokeW.validation_errors = [] :=
  ⟨rfl, rfl, rfl, rfl⟩

/-- C6 (amended): a submission whose answers fail validation ends in
status `CREATED` with the errors stored, nothing enqueued, no charge and
an unchanged balance on the queue-submission path; on the synchronous
run path the submission never reaches validation at all — once the
model loads, `_process` raises `AttributeError` reading
`model.price_per_task`, so the whole store (task row, wallets,
transactions, queue) is returned exactly unchanged and no validation
errors are stored. -/
theorem validation_failure_keeps_created :
    (∀ (env : MLEnv) (s : SysState) (uid mid : Nat) (answers : Answers)
       (ext : String) (meta : MLModelMeta) (bOk : Bool) (errs : List ValidationErr),
      (∀ y ∈ s.tasks, y.id ≠ s.nextTaskId) →
      findModel s.mlModels mid = some meta →
      runtimeInit env meta = .ok () →
      bioAgeValidate (some meta.feature_names) answers = .ok (bOk, errs) →
      errs ≠ [] →
      predict_route env s uid mid answers ext =
        { s with
          tasks := s.tasks ++
            [{ id := s.nextTaskId, user_id := uid, model_id := mid,
               external_id := ext, answers := answers,
               validation_errors := errs, status := .CREATED }],
          nextTaskId := s.nextTaskId + 1 })
    ∧ (∀ (env : MLEnv) (s : SysState) (task : Task) (meta : MLModelMeta),
      load_runtime_model env s task.model_id = .ok meta →
      processTask env s task =
        (s,
         .error "AttributeError: 'RuntimeMLModel' object has no attribute 'price_per_task'")) := by
  constructor
  · intro env s uid mid answers ext meta bOk errs hids hmodel hinit hval hne
    simp only [predict_route, create_task_row, hmodel, hinit, hval,
      if_neg hne, replaceTask]
    rw [replaceTasksL_append_fresh]
    · exact hids
    · rfl
  · intro env s task meta hload
    simp only [processTask, hload]

/-- Closed witness for `validation_failure_keeps_created`: both parts
applied at a concrete invalid submission with a fully funded owner. -/
theorem validation_failure_keeps_created_witness :
    (predict_route envStub
        { nextUserId := 1, wallets := [(0, 100)], mlModels := [mdlW] }
        0 1 [] "t-x" =
      { nextUserId := 1, wallets := [(0, 100)], mlModels := [mdlW],
        tasks := [{ id := 0, user_id := 0, model_id := 1, external_id := "t-x",
                    answers := [], validation_errors := [⟨"age", "Поле обязательно"⟩],
                    status := .CREATED }],
        nextTaskId := 1 })
    ∧ (processTask envStub sRichW taskBrokeW =
        (sRichW,
         .error "AttributeError: 'RuntimeMLModel' object has no attribute 'price_per_task'")) := by
  constructor
  · exact validation_failure_keeps_created.1 envStub _ 0 1 [] "t-x" mdlW false
      [⟨"age", "Поле обязательно"⟩] (by decide) (by decide) rfl rfl (by decide)
  · exact validation_failure_keeps_created.2 envStub sRichW taskBrokeW mdlW rfl

/-- Initial deployment of the ledger-law witness. -/
def s0W : SysState := { mlModels := [mdlW] }

/-- After registering the user. -/
def s1W : SysState :=
  { nextUserId := 1, users := [⟨0, "u@a", .USER⟩], wallets := [(0, 0)],
    mlModels := [mdlW] }

/-- After topping up 100. -/
def s2W : SysState :=
  { nextUserId := 1, users := [⟨0, "u@a", .USER⟩], wallets := [(0, 100)],
    txs := [⟨0, .TOPUP, 100, none⟩], mlModels := [mdlW] }

/-- C2: on every reachable state, every existing wallet balance equals
the user's TOPUP total minus their CHARGE total (ledger replay law); and
every single transition appends its transactions to the log and moves
each balance by exactly the signed sum of the at-most-one new transaction
of that user, so no step changes a balance without its paired ledger
entry. -/
theorem ledger_replay_and_paired :
    (∀ s, Reachable s → ∀ uid b, lookupWallet s.wallets uid = some b →
      b = topupSum uid s.txs - chargeSum uid s.txs)
    ∧ (∀ s s', Reachable s → Step s s' → PairedStep s s') := by
  constructor
  · intro s hr uid b hb
    exact (reachable_inv hr).ledger uid b hb
  · intro s s' hr hstep
    exact paired_step (reachable_inv hr) hstep

/-- Closed witness for `ledger_replay_and_paired`: a concrete
register-then-topup run. -/
theorem ledger_replay_and_paired_witness :
    ((100 : Int) = topupSum 0 s2W.txs - chargeSum 0 s2W.txs)
    ∧ PairedStep s1W s2W := by
  have hreg : register s0W "u@a" "password1" .USER = .ok s1W := rfl
  have htop : topup s1W 0 100 = .ok (s2W, ⟨0, .TOPUP, 100, none⟩) := rfl
  have hr1 : Reachable s1W :=
    .step (.init [mdlW]) (.stepRegister s0W s1W "u@a" "password1" .USER hreg)
  have hr2 : Reachable s2W := .step hr1 (.stepTopup s1W s2W 0 100 _ htop)
  exact ⟨ledger_replay_and_paired.1 s2W hr2 0 100 (by decide),
         ledger_replay_and_paired.2 s1W s2W hr1 (.stepTopup s1W s2W 0 100 _ htop)⟩


/-- The charge/DONE pairing of one execution on one task: in the result
state the task's row exists, and the owner's balance decreased by exactly
the model's price with exactly one appended CHARGE transaction
referencing the task if and only if the row reached `DONE` on this
execution; on every other outcome wallets and transactions are exactly
those of the input state. -/
def ChargeIffDone (s s' : SysState) (t : Task) : Prop :=
  ∃ t', findTaskId s'.tasks t.id = some t' ∧
    ((t'.status = .DONE ∧ t.status ≠ .DONE) →
      ∃ meta b, findModel s.mlModels t.model_id = some meta ∧
        0 < meta.price_per_task ∧
        lookupWallet s.wallets t.user_id = some b ∧
        lookupWallet s'.wallets t.user_id = some (b - meta.price_per_task) ∧
        s'.txs = s.txs ++ [⟨t.user_id, .CHARGE, meta.price_per_task, some t.id⟩]) ∧
    (¬ (t'.status = .DONE ∧ t.status ≠ .DONE) →
      s'.wallets = s.wallets ∧ s'.txs = s.txs)

/-- C1: on every reachable state, every single execution of the
task-processing algorithm — the worker's message handler on a queued
message, or the synchronous run path on a stored task — debits the
owner's wallet by exactly the model's price with exactly one CHARGE
transaction referencing the task if and only if the task reaches `DONE`
in that execution; on every non-`DONE` outcome wallets and the
transaction log are unchanged.  On the synchronous path `_process`
raises `AttributeError` right after the model loads (`RuntimeMLModel`
has no `price_per_task` attribute), so that path never charges and
never reaches `DONE`: the pairing holds there with the entire store
returned unchanged. -/
theorem execution_charges_iff_done {s : SysState} (hreach : Reachable s) :
    (∀ env wid m t, m ∈ s.queue → findTaskExt s.tasks m.task_id = some t →
      ChargeIffDone s (on_message env wid s m).1 t)
    ∧ (∀ env tid t, findTaskId s.tasks tid = some t →
      ChargeIffDone s (run_task_by_id env s tid).1 t) := by
  have hInv := reachable_inv hreach
  constructor
  · intro env wid m t hm hfind
    obtain ⟨htmem, htex⟩ := findTaskExt_mem hfind
    obtain ⟨u, humem, huex, hustat, huval⟩ := hInv.queueOk m hm
    have hut : u = t :=
      task_ext_inj hInv.tasksExtNodup humem htmem (huex.trans htex.symm)
    subst hut
    cases hst : u.status with
    | CREATED => exact absurd hst hustat
    | PROCESSING => exact absurd hst (hInv.noProcessing u htmem)
    | DONE =>
      rw [on_message_terminal env wid s m hfind (Or.inl hst)]
      exact ⟨u, findTaskId_of_mem hInv.tasksIdNodup htmem,
        fun h => (h.2 h.1).elim, fun _ => ⟨rfl, rfl⟩⟩
    | FAILED =>
      rw [on_message_terminal env wid s m hfind (Or.inr hst)]
      exact ⟨u, findTaskId_of_mem hInv.tasksIdNodup htmem,
        fun h => (h.2 h.1).elim, fun _ => ⟨rfl, rfl⟩⟩
    | VALIDATED =>
      have hch : u.charged_amount = none := by
        by_cases hc : u.charged_amount = none
        · exact hc
        · have := (hInv.chargeWhenDone u htmem).1 hc
          rw [hst] at this
          cases this
      obtain ⟨t', hid, hext, huid, hmid, hans, hcase⟩ :=
        on_message_validated_spec env wid s m hInv.tasksIdNodup
          hInv.tasksExtNodup hfind hst hch
      cases hcase with
      | inl hA =>
        obtain ⟨hstat, hchg, heq⟩ := hA
        rw [heq]
        refine ⟨t', findTaskId_replaceTasksL_self hInv.tasksIdNodup htmem hid,
          ?_, fun _ => ⟨rfl, rfl⟩⟩
        intro h
        rw [hstat] at h
        exact absurd h.1 (by decide)
      | inr hB =>
        obtain ⟨meta, b, hmf, hstat, hchg, hpos, hw, hle, heq⟩ := hB
        rw [heq]
        refine ⟨t', findTaskId_replaceTasksL_self hInv.tasksIdNodup htmem hid,
          ?_, ?_⟩
        · intro h
          exact ⟨meta, b, hmf, hpos, hw, lookupWallet_setWallet_self hw _, rfl⟩
        · intro hno
          exact absurd ⟨hstat, by rw [hst]; intro hc; cases hc⟩ hno
  · intro env tid t hfind
    obtain ⟨htmem, htid⟩ := findTaskId_mem hfind
    by_cases hterm : t.status = .DONE ∨ t.status = .FAILED
    · have heq : run_task_by_id env s tid =
          (s, .error "Нельзя запускать задачу в терминальном статусе") := by
        simp only [run_task_by_id, hfind, if_pos hterm]
      rw [heq]
      exact ⟨t, htid ▸ findTaskId_of_mem hInv.tasksIdNodup htmem,
        fun h => (h.2 h.1).elim, fun _ => ⟨rfl, rfl⟩⟩
    · have heq : run_task_by_id env s tid = processTask env s t := by
        simp only [run_task_by_id, hfind, if_neg hterm]
      rw [heq, processTask_state]
      exact ⟨t, htid ▸ findTaskId_of_mem hInv.tasksIdNodup htmem,
        fun h => (h.2 h.1).elim, fun _ => ⟨rfl, rfl⟩⟩

/-- The validated task of the charge-iff-done witness, as produced by
the `/predict` route on valid answers. -/
def taskValW : Task :=
  { id := 0, user_id := 0, model_id := 1, external_id := "t-0",
    answers := [("age", .pyInt 40)], validation_errors := [],
    status := .VALIDATED }

/-- The reachable state of the charge-iff-done witness: registered user,
topped up 100, one validated task with its queued message. -/
def s4W : SysState :=
  { nextUserId := 1, nextTaskId := 1, users := [⟨0, "u@a", .USER⟩],
    wallets := [(0, 100)], txs := [⟨0, .TOPUP, 100, none⟩],
    tasks := [taskValW], queue := [⟨"t-0"⟩], mlModels := [mdlW] }

/-- Closed witness for `execution_charges_iff_done`: the worker handler
consuming the queued message of a concrete reachable validated task
(register, topup 100, submit via the route, consume). -/
theorem execution_charges_iff_done_witness :
    ChargeIffDone s4W (on_message envStub "w1" s4W ⟨"t-0"⟩).1 taskValW := by
  have hreg : register s0W "u@a" "password1" .USER = .ok s1W := rfl
  have htop : topup s1W 0 100 = .ok (s2W, ⟨0, .TOPUP, 100, none⟩) := rfl
  have hr2 : Reachable s2W :=
    .step (.step (.init [mdlW]) (.stepRegister s0W s1W "u@a" "password1" .USER hreg))
      (.stepTopup s1W s2W 0 100 _ htop)
  have hroute : predict_route envStub s2W 0 1 [("age", .pyInt 40)] "t-0" = s4W := rfl
  have hr4 : Reachable s4W := by
    rw [← hroute]
    exact .step hr2 (.stepPredictRoute s2W envStub 0 1 [("age", .pyInt 40)] "t-0"
      (by intro t ht; cases ht))
  exact (execution_charges_iff_done hr4).1 envStub "w1" ⟨"t-0"⟩ taskValW
    (by decide) (by decide)

end MLBioAge
